import Mathlib

/-
Verification development for the tasklets library (src/tasklets.ts).

The library implements a promise-like deferred value (`Tasklet`) with
multi-delivery settlement: every `rejected`/`fulfilled` call appends to a
per-channel history and notifies subscribers on a deferred scheduler turn,
while a one-shot `outcome` latch records the first resolution.  We embed the
class state as a record, the deferred `process.nextTick` notifications as a
FIFO queue of `Tick`s, and observable actions (handler invocations,
console diagnostics, work cancellation) as an `Event` list.
-/

namespace Tasklets

/-- The `Outcome` enum of the source, in declaration order
(`Uninitialized = 0, Pending = 1, Error = 2, Result = 3`). -/
inductive Outcome where
| Uninitialized
| Pending
| Error
| Result
deriving DecidableEq

/-- Numeric value of the source enum constant; `Tasklet.resolution` compares
outcomes with `<=` on these values. -/
def Outcome.toNat : Outcome → Nat
| .Uninitialized => 0
| .Pending => 1
| .Error => 2
| .Result => 3

/-- Dynamic error values flowing through the library, one constructor per
error class of the source (`TimeoutError`, the plain double-contract `Error`,
the plain then-without-handler `Error`, `WorkError`, `CancellationError`,
`RejectionError`, `FulfillmentError`) plus arbitrary user errors.
`ρ` is the result type carried by `FulfillmentError<Result>`. -/
inductive Err (ρ : Type) where
| timeout : Err ρ
| doubleContract : Err ρ
| mustSupplyHandler : Err ρ
| work : Err ρ → Err ρ
| cancellation : Err ρ → Err ρ
| rejection : Err ρ → Err ρ → Err ρ
| fulfillment : ρ → Err ρ → Err ρ
| user : Nat → Err ρ
deriving DecidableEq

/-- A subscriber handler: an identity (to recognise its invocations in the
event log) together with its throwing behaviour — `throws v = some p` means
the handler throws `p` when invoked with `v`. -/
structure Handler (α ρ : Type) where
  id : Nat
  throws : α → Option (Err ρ)

/-- Behaviour of a cancelable `Work` handle returned by a job:
whether its `cancel()` throws, and with which problem. -/
structure Work (ρ : Type) where
  cancelThrows : Option (Err ρ)
deriving DecidableEq

/-- Observable actions of the embedding: handler invocations on either
channel, the three console diagnostics (`console.error` / `console.warn` /
`console.trace`) and invocation of a work handle's `cancel()`. -/
inductive Event (ρ : Type) where
| invokeError : Nat → Err ρ → Event ρ
| invokeResult : Nat → ρ → Event ρ
| consoleErrorE : Err ρ → Event ρ
| consoleWarnE : Err ρ → Event ρ
| consoleTraceR : ρ → Event ρ
| cancelWork : Event ρ
deriving DecidableEq

/-- A deferred `process.nextTick` notification scheduled by
`Tasklet.rejected` / `Tasklet.fulfilled`: it captures the delivered value and
the `isPromise` flag, and reads the subscriber list only when it runs. -/
inductive Tick (ρ : Type) where
| notifyErrors : Err ρ → Bool → Tick ρ
| notifyResults : ρ → Bool → Tick ρ
deriving DecidableEq

/-- The state of one `Tasklet` instance: the `options.timeout` seconds, the
pending timer (if armed, carrying its delay in milliseconds), the two
append-only histories, the two subscriber lists, the `outcome` latch, the
captured cancelable work handle, and whether the attached contract was
promise-like (the captured `isPromiseLikeShape(contract)` of `contracted`). -/
structure Tasklet (ρ : Type) where
  timeout : Nat
  timer : Option Nat
  resolvedErrors : List (Err ρ)
  resolvedResults : List ρ
  errorHandlers : List (Handler (Err ρ) ρ)
  resultHandlers : List (Handler ρ ρ)
  outcome : Outcome
  work : Option (Work ρ)
  isPromiseContract : Bool

/-- A `Tasklet` together with its queue of pending deferred notifications
(the slice of the `process.nextTick` queue belonging to this instance). -/
structure Machine (ρ : Type) where
  unit : Tasklet ρ
  ticks : List (Tick ρ)

/-- A freshly constructed `Tasklet` (`new Tasklet(options)`): everything
empty, outcome `Uninitialized`, no timer, with the given timeout option. -/
def newMachine {ρ : Type} (t : Nat) : Machine ρ :=
  { unit := { timeout := t, timer := none, resolvedErrors := [],
              resolvedResults := [], errorHandlers := [], resultHandlers := [],
              outcome := Outcome.Uninitialized, work := none,
              isPromiseContract := false },
    ticks := [] }

/-- `Tasklet.resolution`: always clear the pending timer, then latch
`outcome` only while the current outcome is at most `Pending` (the source
compares the numeric enum values with `<=`). -/
def resolution {ρ : Type} (o : Outcome) (t : Tasklet ρ) : Tasklet ρ :=
  let t2 := { t with timer := (none : Option Nat) }
  if t2.outcome.toNat ≤ Outcome.Pending.toNat then { t2 with outcome := o } else t2

/-- `Tasklet.rejected(error, isPromise)`: run `resolution(Outcome.Error)`,
append the error to `resolvedErrors`, and schedule a deferred notification
carrying the error and the `isPromise` flag. -/
def rejectedM {ρ : Type} (e : Err ρ) (p : Bool) (m : Machine ρ) : Machine ρ :=
  let u := resolution Outcome.Error m.unit
  { unit := { u with resolvedErrors := u.resolvedErrors ++ [e] },
    ticks := m.ticks ++ [Tick.notifyErrors e p] }

/-- `Tasklet.fulfilled(result, isPromise)`: run `resolution(Outcome.Result)`,
append the result to `resolvedResults`, and schedule a deferred
notification. -/
def fulfilledM {ρ : Type} (r : ρ) (p : Bool) (m : Machine ρ) : Machine ρ :=
  let u := resolution Outcome.Result m.unit
  { unit := { u with resolvedResults := u.resolvedResults ++ [r] },
    ticks := m.ticks ++ [Tick.notifyResults r p] }

/-- `Tasklet.handleRejection`: invoke the handler with the error; if it
throws, catch the problem and report a `RejectionError` wrapping the original
error and the problem via `console.error`. -/
def handleRejection {ρ : Type} (h : Handler (Err ρ) ρ) (e : Err ρ) : List (Event ρ) :=
  Event.invokeError h.id e ::
    (match h.throws e with
     | some problem => [Event.consoleErrorE (Err.rejection e problem)]
     | none => [])

/-- `Tasklet.handleFulfillment`: invoke the handler with the result; if it
throws, catch the problem and report a `FulfillmentError` wrapping the
original result and the problem via `console.error`. -/
def handleFulfillment {ρ : Type} (h : Handler ρ ρ) (r : ρ) : List (Event ρ) :=
  Event.invokeResult h.id r ::
    (match h.throws r with
     | some problem => [Event.consoleErrorE (Err.fulfillment r problem)]
     | none => [])

/-- Body of the deferred notification scheduled by `rejected`: if there are
error subscribers, deliver the error to each in registration order through
`handleRejection`; otherwise `console.warn` it unless the settlement came
from a promise-like contract. -/
def notifyErrorHandlers {ρ : Type} (hs : List (Handler (Err ρ) ρ)) (e : Err ρ)
    (p : Bool) : List (Event ρ) :=
  if hs.length > 0 then (hs.map (fun h => handleRejection h e)).flatten
  else if p then [] else [Event.consoleWarnE e]

/-- Body of the deferred notification scheduled by `fulfilled`: deliver to
each result subscriber in order, or `console.trace` an unhandled result
unless the settlement came from a promise-like contract. -/
def notifyResultHandlers {ρ : Type} (hs : List (Handler ρ ρ)) (r : ρ)
    (p : Bool) : List (Event ρ) :=
  if hs.length > 0 then (hs.map (fun h => handleFulfillment h r)).flatten
  else if p then [] else [Event.consoleTraceR r]

/-- Delivery produced by one deferred notification when it finally runs: it
reads the subscriber lists of the unit as they stand at that moment. -/
def tickEvents {ρ : Type} (u : Tasklet ρ) : Tick ρ → List (Event ρ)
| Tick.notifyErrors e p => notifyErrorHandlers u.errorHandlers e p
| Tick.notifyResults r p => notifyResultHandlers u.resultHandlers r p

/-- Run the oldest pending deferred notification: it reads the subscriber
list as it stands now (not as it stood when the notification was scheduled)
and produces the delivery events.  The unit state itself is untouched. -/
def runTick {ρ : Type} (m : Machine ρ) : Machine ρ × List (Event ρ) :=
  match m.ticks with
  | [] => (m, [])
  | t :: rest => ({ m with ticks := rest }, tickEvents m.unit t)

/-- `Tasklet.errors(rejected)`: push the handler onto the subscriber list and
synchronously replay every entry of `resolvedErrors` to it, in history order
(the source pushes first and replays from the unchanged history; the replay
events are returned alongside the updated unit, which the method returns for
chaining). -/
def errorsReg {ρ : Type} (h : Handler (Err ρ) ρ) (m : Machine ρ) :
    Machine ρ × List (Event ρ) :=
  ({ m with unit := { m.unit with errorHandlers := m.unit.errorHandlers ++ [h] } },
   (m.unit.resolvedErrors.map (fun e => handleRejection h e)).flatten)

/-- `Tasklet.results(fulfillment)`: push the handler and synchronously replay
every entry of `resolvedResults` to it, in history order. -/
def resultsReg {ρ : Type} (h : Handler ρ ρ) (m : Machine ρ) :
    Machine ρ × List (Event ρ) :=
  ({ m with unit := { m.unit with resultHandlers := m.unit.resultHandlers ++ [h] } },
   (m.unit.resolvedResults.map (fun r => handleFulfillment h r)).flatten)

/-- `Tasklet.initialise(timer)`: a second contract attachment (outcome not
`Uninitialized`) is routed through `rejected` with the plain double-contract
error; otherwise the unit becomes `Pending` and, unless `options.timeout` is
`0`, a timer for `timeout * 1000` milliseconds is armed. -/
def initialiseM {ρ : Type} (m : Machine ρ) : Machine ρ :=
  if m.unit.outcome ≠ Outcome.Uninitialized then
    rejectedM Err.doubleContract false m
  else
    let d : Option Nat :=
      if m.unit.timeout = 0 then none else some (m.unit.timeout * 1000)
    { m with unit := { m.unit with outcome := Outcome.Pending, timer := d } }

/-- One synchronous call a callback-style job makes on its two callbacks:
`done(result | Error)` (the source branches on `instanceof Error`, here the
sum tag) or `reject(error)`. -/
inductive SettleCall (ρ : Type) where
| done : Sum ρ (Err ρ) → SettleCall ρ
| reject : Err ρ → SettleCall ρ
deriving DecidableEq

/-- Behaviour of a callback-style job at its synchronous invocation: the
calls it makes on `done`/`reject`, in order, and then either the problem it
throws or the value it returns (`some` a cancelable `Work` handle when the
return satisfies `isWorkShape`, `none` otherwise). -/
structure Job (ρ : Type) where
  calls : List (SettleCall ρ)
  result : Except (Err ρ) (Option (Work ρ))

/-- A `Contract`: either a callback-style job or a promise-like foreign
deferred value (`isPromiseLikeShape`). -/
inductive Contract (ρ : Type) where
| job : Job ρ → Contract ρ
| promiseLike : Contract ρ

/-- Effect of one job call through the adapter closures of `contracted`:
`done` routes an `Error`-tagged value to `rejected` and any other value to
`fulfilled`; `reject` routes to `rejected`.  `p` is the captured
`isPromiseLikeShape(contract)` flag. -/
def applySettleCall {ρ : Type} (p : Bool) (m : Machine ρ) (c : SettleCall ρ) :
    Machine ρ :=
  match c with
  | SettleCall.done (Sum.inl r) => fulfilledM r p m
  | SettleCall.done (Sum.inr e) => rejectedM e p m
  | SettleCall.reject e => rejectedM e p m

/-- `Tasklet.contracted(contract)`: first `initialise`; then for a
promise-like contract subscribe to it (recorded in `isPromiseContract`, its
settlements arriving later with `isPromise = true`); for a job, invoke it
synchronously — its calls flow through `applySettleCall` with
`isPromise = false` — and either wrap a thrown problem in a `WorkError`
rejection or capture its returned work handle. -/
def contracted {ρ : Type} (c : Contract ρ) (m : Machine ρ) : Machine ρ :=
  let m1 := initialiseM m
  match c with
  | Contract.promiseLike =>
    { m1 with unit := { m1.unit with isPromiseContract := true } }
  | Contract.job j =>
    let m2 := j.calls.foldl (applySettleCall false) m1
    match j.result with
    | Except.error problem => rejectedM (Err.work problem) false m2
    | Except.ok w => { m2 with unit := { m2.unit with work := w } }

/-- The timer callback armed by `contracted` through `initialise`, firing
only while the timer is still pending: if the captured work handle is
cancelable, invoke `cancel()` once, reporting (not propagating) a
`CancellationError` if it throws; then reject with a `TimeoutError`
regardless. -/
def fireTimeout {ρ : Type} (m : Machine ρ) : Machine ρ × List (Event ρ) :=
  match m.unit.timer with
  | none => (m, [])
  | some _ =>
    let evs : List (Event ρ) :=
      match m.unit.work with
      | some w => Event.cancelWork ::
          (match w.cancelThrows with
           | some problem => [Event.consoleErrorE (Err.cancellation problem)]
           | none => [])
      | none => []
    (rejectedM Err.timeout m.unit.isPromiseContract m, evs)

/-- One resolution call against the Settlement Engine: a `rejected` or a
`fulfilled` call with its value and captured `isPromise` flag. -/
inductive Call (ρ : Type) where
| rejectedC : Err ρ → Bool → Call ρ
| fulfilledC : ρ → Bool → Call ρ
deriving DecidableEq

/-- Apply one resolution call to a machine. -/
def applyCall {ρ : Type} (m : Machine ρ) (c : Call ρ) : Machine ρ :=
  match c with
  | Call.rejectedC e p => rejectedM e p m
  | Call.fulfilledC r p => fulfilledM r p m

/-- Apply a sequence of resolution calls, oldest first. -/
def applyCalls {ρ : Type} (cs : List (Call ρ)) (m : Machine ρ) : Machine ρ :=
  cs.foldl applyCall m

theorem outcome_low_iff (o : Outcome) :
    o.toNat ≤ 1 ↔ (o = Outcome.Uninitialized ∨ o = Outcome.Pending) := by
  cases o <;> simp [Outcome.toNat]

theorem outcome_high_iff (o : Outcome) :
    ¬ o.toNat ≤ 1 ↔ (o = Outcome.Error ∨ o = Outcome.Result) := by
  cases o <;> simp [Outcome.toNat]

theorem resolution_resolvedErrors {ρ : Type} (o : Outcome) (t : Tasklet ρ) :
    (resolution o t).resolvedErrors = t.resolvedErrors := by
  unfold resolution; dsimp only; split <;> rfl

theorem resolution_resolvedResults {ρ : Type} (o : Outcome) (t : Tasklet ρ) :
    (resolution o t).resolvedResults = t.resolvedResults := by
  unfold resolution; dsimp only; split <;> rfl

theorem resolution_errorHandlers {ρ : Type} (o : Outcome) (t : Tasklet ρ) :
    (resolution o t).errorHandlers = t.errorHandlers := by
  unfold resolution; dsimp only; split <;> rfl

theorem resolution_resultHandlers {ρ : Type} (o : Outcome) (t : Tasklet ρ) :
    (resolution o t).resultHandlers = t.resultHandlers := by
  unfold resolution; dsimp only; split <;> rfl

theorem resolution_timer {ρ : Type} (o : Outcome) (t : Tasklet ρ) :
    (resolution o t).timer = none := by
  unfold resolution; dsimp only; split <;> rfl

theorem resolution_outcome_low {ρ : Type} (o : Outcome) (t : Tasklet ρ)
    (h : t.outcome.toNat ≤ 1) : (resolution o t).outcome = o := by
  have h2 : t.outcome.toNat ≤ Outcome.Pending.toNat := h
  unfold resolution; dsimp only; rw [if_pos h2]

theorem resolution_outcome_high {ρ : Type} (o : Outcome) (t : Tasklet ρ)
    (h : ¬ t.outcome.toNat ≤ 1) : (resolution o t).outcome = t.outcome := by
  have h2 : ¬ t.outcome.toNat ≤ Outcome.Pending.toNat := h
  unfold resolution; dsimp only; rw [if_neg h2]

theorem rejectedM_resolvedErrors {ρ : Type} (e : Err ρ) (p : Bool) (m : Machine ρ) :
    (rejectedM e p m).unit.resolvedErrors = m.unit.resolvedErrors ++ [e] := by
  unfold rejectedM; dsimp only; rw [resolution_resolvedErrors]

theorem rejectedM_resolvedResults {ρ : Type} (e : Err ρ) (p : Bool) (m : Machine ρ) :
    (rejectedM e p m).unit.resolvedResults = m.unit.resolvedResults := by
  unfold rejectedM; dsimp only; rw [resolution_resolvedResults]

theorem rejectedM_errorHandlers {ρ : Type} (e : Err ρ) (p : Bool) (m : Machine ρ) :
    (rejectedM e p m).unit.errorHandlers = m.unit.errorHandlers := by
  unfold rejectedM; dsimp only; rw [resolution_errorHandlers]

theorem rejectedM_resultHandlers {ρ : Type} (e : Err ρ) (p : Bool) (m : Machine ρ) :
    (rejectedM e p m).unit.resultHandlers = m.unit.resultHandlers := by
  unfold rejectedM; dsimp only; rw [resolution_resultHandlers]

theorem rejectedM_ticks {ρ : Type} (e : Err ρ) (p : Bool) (m : Machine ρ) :
    (rejectedM e p m).ticks = m.ticks ++ [Tick.notifyErrors e p] := rfl

theorem rejectedM_outcome_low {ρ : Type} (e : Err ρ) (p : Bool) (m : Machine ρ)
    (h : m.unit.outcome.toNat ≤ 1) :
    (rejectedM e p m).unit.outcome = Outcome.Error := by
  unfold rejectedM; dsimp only; rw [resolution_outcome_low _ _ h]

theorem rejectedM_outcome_high {ρ : Type} (e : Err ρ) (p : Bool) (m : Machine ρ)
    (h : ¬ m.unit.outcome.toNat ≤ 1) :
    (rejectedM e p m).unit.outcome = m.unit.outcome := by
  unfold rejectedM; dsimp only; rw [resolution_outcome_high _ _ h]

theorem fulfilledM_resolvedResults {ρ : Type} (r : ρ) (p : Bool) (m : Machine ρ) :
    (fulfilledM r p m).unit.resolvedResults = m.unit.resolvedResults ++ [r] := by
  unfold fulfilledM; dsimp only; rw [resolution_resolvedResults]

theorem fulfilledM_resolvedErrors {ρ : Type} (r : ρ) (p : Bool) (m : Machine ρ) :
    (fulfilledM r p m).unit.resolvedErrors = m.unit.resolvedErrors := by
  unfold fulfilledM; dsimp only; rw [resolution_resolvedErrors]

theorem fulfilledM_errorHandlers {ρ : Type} (r : ρ) (p : Bool) (m : Machine ρ) :
    (fulfilledM r p m).unit.errorHandlers = m.unit.errorHandlers := by
  unfold fulfilledM; dsimp only; rw [resolution_errorHandlers]

theorem fulfilledM_resultHandlers {ρ : Type} (r : ρ) (p : Bool) (m : Machine ρ) :
    (fulfilledM r p m).unit.resultHandlers = m.unit.resultHandlers := by
  unfold fulfilledM; dsimp only; rw [resolution_resultHandlers]

theorem fulfilledM_ticks {ρ : Type} (r : ρ) (p : Bool) (m : Machine ρ) :
    (fulfilledM r p m).ticks = m.ticks ++ [Tick.notifyResults r p] := rfl

theorem fulfilledM_outcome_low {ρ : Type} (r : ρ) (p : Bool) (m : Machine ρ)
    (h : m.unit.outcome.toNat ≤ 1) :
    (fulfilledM r p m).unit.outcome = Outcome.Result := by
  unfold fulfilledM; dsimp only; rw [resolution_outcome_low _ _ h]

theorem fulfilledM_outcome_high {ρ : Type} (r : ρ) (p : Bool) (m : Machine ρ)
    (h : ¬ m.unit.outcome.toNat ≤ 1) :
    (fulfilledM r p m).unit.outcome = m.unit.outcome := by
  unfold fulfilledM; dsimp only; rw [resolution_outcome_high _ _ h]

theorem applyCall_outcome_terminal {ρ : Type} (m : Machine ρ) (c : Call ρ)
    (h : m.unit.outcome = Outcome.Error ∨ m.unit.outcome = Outcome.Result) :
    (applyCall m c).unit.outcome = m.unit.outcome := by
  have hh : ¬ m.unit.outcome.toNat ≤ 1 := (outcome_high_iff _).mpr h
  cases c with
  | rejectedC e p => exact rejectedM_outcome_high e p m hh
  | fulfilledC r p => exact fulfilledM_outcome_high r p m hh

theorem applyCalls_outcome_terminal {ρ : Type} (cs : List (Call ρ)) (m : Machine ρ)
    (h : m.unit.outcome = Outcome.Error ∨ m.unit.outcome = Outcome.Result) :
    (applyCalls cs m).unit.outcome = m.unit.outcome := by
  induction cs generalizing m with
  | nil => rfl
  | cons c cs ih =>
    have step := applyCall_outcome_terminal m c h
    have hterm : (applyCall m c).unit.outcome = Outcome.Error ∨
        (applyCall m c).unit.outcome = Outcome.Result := by rw [step]; exact h
    calc (applyCalls (c :: cs) m).unit.outcome
        = (applyCalls cs (applyCall m c)).unit.outcome := rfl
      _ = (applyCall m c).unit.outcome := ih (applyCall m c) hterm
      _ = m.unit.outcome := step

theorem mem_notifyErrorHandlers {ρ : Type} (hs : List (Handler (Err ρ) ρ))
    (h : Handler (Err ρ) ρ) (e : Err ρ) (p : Bool) (hmem : h ∈ hs) :
    Event.invokeError h.id e ∈ notifyErrorHandlers hs e p := by
  unfold notifyErrorHandlers
  have hpos : hs.length > 0 := by
    cases hs with
    | nil => cases hmem
    | cons a l => simp
  rw [if_pos hpos]
  refine List.mem_flatten.mpr ⟨handleRejection h e, List.mem_map.mpr ⟨h, hmem, rfl⟩, ?_⟩
  unfold handleRejection
  exact List.mem_cons_self _ _

theorem mem_notifyResultHandlers {ρ : Type} (hs : List (Handler ρ ρ))
    (h : Handler ρ ρ) (r : ρ) (p : Bool) (hmem : h ∈ hs) :
    Event.invokeResult h.id r ∈ notifyResultHandlers hs r p := by
  unfold notifyResultHandlers
  have hpos : hs.length > 0 := by
    cases hs with
    | nil => cases hmem
    | cons a l => simp
  rw [if_pos hpos]
  refine List.mem_flatten.mpr ⟨handleFulfillment h r, List.mem_map.mpr ⟨h, hmem, rfl⟩, ?_⟩
  unfold handleFulfillment
  exact List.mem_cons_self _ _

/-- The values delivered to handler identity `i` on the error channel, in
order, as recorded in an event list. -/
def errDeliveries {ρ : Type} (i : Nat) (evs : List (Event ρ)) : List (Err ρ) :=
  evs.filterMap (fun ev => match ev with
    | Event.invokeError j e => if j = i then some e else none
    | _ => none)

/-- The values delivered to handler identity `i` on the result channel, in
order, as recorded in an event list. -/
def resDeliveries {ρ : Type} (i : Nat) (evs : List (Event ρ)) : List ρ :=
  evs.filterMap (fun ev => match ev with
    | Event.invokeResult j r => if j = i then some r else none
    | _ => none)

theorem errDeliveries_append {ρ : Type} (i : Nat) (a b : List (Event ρ)) :
    errDeliveries i (a ++ b) = errDeliveries i a ++ errDeliveries i b := by
  unfold errDeliveries; rw [List.filterMap_append]

theorem resDeliveries_append {ρ : Type} (i : Nat) (a b : List (Event ρ)) :
    resDeliveries i (a ++ b) = resDeliveries i a ++ resDeliveries i b := by
  unfold resDeliveries; rw [List.filterMap_append]

theorem errDeliveries_handleRejection {ρ : Type} (h : Handler (Err ρ) ρ)
    (e : Err ρ) : errDeliveries h.id (handleRejection h e) = [e] := by
  unfold handleRejection errDeliveries
  cases hth : h.throws e <;> simp [hth, List.filterMap]

theorem resDeliveries_handleFulfillment {ρ : Type} (h : Handler ρ ρ)
    (r : ρ) : resDeliveries h.id (handleFulfillment h r) = [r] := by
  unfold handleFulfillment resDeliveries
  cases hth : h.throws r <;> simp [hth, List.filterMap]

theorem errDeliveries_replay {ρ : Type} (h : Handler (Err ρ) ρ)
    (es : List (Err ρ)) :
    errDeliveries h.id ((es.map (fun e => handleRejection h e)).flatten) = es := by
  induction es with
  | nil => rfl
  | cons e es ih =>
    rw [List.map_cons, List.flatten_cons, errDeliveries_append,
      errDeliveries_handleRejection, ih]
    rfl

theorem resDeliveries_replay {ρ : Type} (h : Handler ρ ρ)
    (rs : List ρ) :
    resDeliveries h.id ((rs.map (fun r => handleFulfillment h r)).flatten) = rs := by
  induction rs with
  | nil => rfl
  | cons r rs ih =>
    rw [List.map_cons, List.flatten_cons, resDeliveries_append,
      resDeliveries_handleFulfillment, ih]
    rfl

/-- Fresh machine over `Nat` results, to instantiate general theorems. -/
def wUninit : Machine Nat := newMachine 8

/-- A pending unit with no history, subscribers or queued notifications. -/
def wPending : Machine Nat :=
  { wUninit with unit := { wUninit.unit with outcome := Outcome.Pending } }

/-- A unit already settled as `Error`. -/
def wError : Machine Nat :=
  { wUninit with unit := { wUninit.unit with outcome := Outcome.Error } }

/-- C1: on a Unit whose outcome is Uninitialized or Pending, the first
`rejected`/`fulfilled` call fixes the outcome to Error resp. Result; on a
Unit whose outcome is already Error or Result, any further `rejected`/
`fulfilled` call leaves the outcome unchanged while still appending its value
to the matching history and still scheduling a deferred notification whose
delivery reaches every subscriber present at notification time; consequently
any whole sequence of further calls leaves a settled outcome unchanged — it
never returns to Pending and never flips between Error and Result. -/
theorem C1_outcome_latched (ρ : Type) (m mt : Machine ρ) (e : Err ρ) (r : ρ)
    (p q : Bool) (cs : List (Call ρ)) (hl : Handler (Err ρ) ρ) (hr : Handler ρ ρ)
    (hse : List (Handler (Err ρ) ρ)) (hsr : List (Handler ρ ρ))
    (hm : m.unit.outcome = Outcome.Uninitialized ∨ m.unit.outcome = Outcome.Pending)
    (ht : mt.unit.outcome = Outcome.Error ∨ mt.unit.outcome = Outcome.Result)
    (hmemE : hl ∈ hse) (hmemR : hr ∈ hsr) :
    ((rejectedM e p m).unit.outcome = Outcome.Error
       ∧ (fulfilledM r q m).unit.outcome = Outcome.Result)
    ∧ ((rejectedM e p mt).unit.outcome = mt.unit.outcome
       ∧ (fulfilledM r q mt).unit.outcome = mt.unit.outcome)
    ∧ ((rejectedM e p mt).unit.resolvedErrors = mt.unit.resolvedErrors ++ [e]
       ∧ (fulfilledM r q mt).unit.resolvedResults = mt.unit.resolvedResults ++ [r])
    ∧ ((rejectedM e p mt).ticks = mt.ticks ++ [Tick.notifyErrors e p]
       ∧ (fulfilledM r q mt).ticks = mt.ticks ++ [Tick.notifyResults r q])
    ∧ (Event.invokeError hl.id e ∈ notifyErrorHandlers hse e p
       ∧ Event.invokeResult hr.id r ∈ notifyResultHandlers hsr r q)
    ∧ (applyCalls cs mt).unit.outcome = mt.unit.outcome := by
  have hlow : m.unit.outcome.toNat ≤ 1 := (outcome_low_iff _).mpr hm
  have hhigh : ¬ mt.unit.outcome.toNat ≤ 1 := (outcome_high_iff _).mpr ht
  exact ⟨⟨rejectedM_outcome_low e p m hlow, fulfilledM_outcome_low r q m hlow⟩,
    ⟨rejectedM_outcome_high e p mt hhigh, fulfilledM_outcome_high r q mt hhigh⟩,
    ⟨rejectedM_resolvedErrors e p mt, fulfilledM_resolvedResults r q mt⟩,
    ⟨rejectedM_ticks e p mt, fulfilledM_ticks r q mt⟩,
    ⟨mem_notifyErrorHandlers hse hl e p hmemE,
     mem_notifyResultHandlers hsr hr r q hmemR⟩,
    applyCalls_outcome_terminal cs mt ht⟩

/-- Witness for C1 at a fresh Uninitialized unit and an Error-settled unit. -/
theorem C1_outcome_latched_witness :
    (wUninit.unit.outcome = Outcome.Uninitialized
      ∨ wUninit.unit.outcome = Outcome.Pending)
    ∧ (wError.unit.outcome = Outcome.Error ∨ wError.unit.outcome = Outcome.Result)
    ∧ (rejectedM (Err.user 0) false wUninit).unit.outcome = Outcome.Error
    ∧ (applyCalls [Call.fulfilledC 1 false] wError).unit.outcome
        = wError.unit.outcome := by
  have H := C1_outcome_latched Nat wUninit wError (Err.user 0) 0 false false
    [Call.fulfilledC 1 false] ⟨0, fun _ => none⟩ ⟨1, fun _ => none⟩
    [⟨0, fun _ => none⟩] [⟨1, fun _ => none⟩]
    (Or.inl rfl) (Or.inl rfl) (List.mem_cons_self _ _) (List.mem_cons_self _ _)
  exact ⟨Or.inl rfl, Or.inl rfl, H.1.1, H.2.2.2.2.2⟩

/-- C2: registering a handler through `errors` (resp. `results`)
synchronously replays the matching history to it before the call returns:
the handler's invocation events extracted from the replay are exactly the
history, once per entry and in history order.  The registration appends the
handler to the matching subscriber list (where it will receive future
events), changes nothing else of the unit — the method hands the same unit
back for chaining — and queues no deferred notification. -/
theorem C2_registration_replay (ρ : Type) (m m2 : Machine ρ)
    (h : Handler (Err ρ) ρ) (g : Handler ρ ρ) :
    (errDeliveries h.id (errorsReg h m).2 = m.unit.resolvedErrors
     ∧ (errorsReg h m).1.unit.errorHandlers = m.unit.errorHandlers ++ [h]
     ∧ (errorsReg h m).1.unit.resultHandlers = m.unit.resultHandlers
     ∧ (errorsReg h m).1.unit.resolvedErrors = m.unit.resolvedErrors
     ∧ (errorsReg h m).1.unit.resolvedResults = m.unit.resolvedResults
     ∧ (errorsReg h m).1.unit.outcome = m.unit.outcome
     ∧ (errorsReg h m).1.unit.timer = m.unit.timer
     ∧ (errorsReg h m).1.ticks = m.ticks)
    ∧ (resDeliveries g.id (resultsReg g m2).2 = m2.unit.resolvedResults
     ∧ (resultsReg g m2).1.unit.resultHandlers = m2.unit.resultHandlers ++ [g]
     ∧ (resultsReg g m2).1.unit.errorHandlers = m2.unit.errorHandlers
     ∧ (resultsReg g m2).1.unit.resolvedErrors = m2.unit.resolvedErrors
     ∧ (resultsReg g m2).1.unit.resolvedResults = m2.unit.resolvedResults
     ∧ (resultsReg g m2).1.unit.outcome = m2.unit.outcome
     ∧ (resultsReg g m2).1.unit.timer = m2.unit.timer
     ∧ (resultsReg g m2).1.ticks = m2.ticks) :=
  ⟨⟨errDeliveries_replay h m.unit.resolvedErrors,
    rfl, rfl, rfl, rfl, rfl, rfl, rfl⟩,
   ⟨resDeliveries_replay g m2.unit.resolvedResults,
    rfl, rfl, rfl, rfl, rfl, rfl, rfl⟩⟩

theorem notifyErrorHandlers_eq_flatten {ρ : Type} (hs : List (Handler (Err ρ) ρ))
    (e : Err ρ) (p : Bool) (hne : hs ≠ []) :
    notifyErrorHandlers hs e p = (hs.map (fun h => handleRejection h e)).flatten := by
  unfold notifyErrorHandlers
  rw [if_pos (List.length_pos.mpr hne)]

theorem notifyResultHandlers_eq_flatten {ρ : Type} (hs : List (Handler ρ ρ))
    (r : ρ) (p : Bool) (hne : hs ≠ []) :
    notifyResultHandlers hs r p = (hs.map (fun h => handleFulfillment h r)).flatten := by
  unfold notifyResultHandlers
  rw [if_pos (List.length_pos.mpr hne)]

theorem mem_diag_notifyErrorHandlers {ρ : Type} (hs : List (Handler (Err ρ) ρ))
    (h : Handler (Err ρ) ρ) (e : Err ρ) (p : Bool) (pr : Err ρ)
    (hmem : h ∈ hs) (hth : h.throws e = some pr) :
    Event.consoleErrorE (Err.rejection e pr) ∈ notifyErrorHandlers hs e p := by
  rw [notifyErrorHandlers_eq_flatten hs e p (by rintro rfl; cases hmem)]
  refine List.mem_flatten.mpr ⟨handleRejection h e, List.mem_map.mpr ⟨h, hmem, rfl⟩, ?_⟩
  unfold handleRejection
  rw [hth]
  exact List.mem_cons_of_mem _ (List.mem_cons_self _ _)

theorem mem_diag_notifyResultHandlers {ρ : Type} (hs : List (Handler ρ ρ))
    (h : Handler ρ ρ) (r : ρ) (p : Bool) (pf : Err ρ)
    (hmem : h ∈ hs) (hth : h.throws r = some pf) :
    Event.consoleErrorE (Err.fulfillment r pf) ∈ notifyResultHandlers hs r p := by
  rw [notifyResultHandlers_eq_flatten hs r p (by rintro rfl; cases hmem)]
  refine List.mem_flatten.mpr ⟨handleFulfillment h r, List.mem_map.mpr ⟨h, hmem, rfl⟩, ?_⟩
  unfold handleFulfillment
  rw [hth]
  exact List.mem_cons_of_mem _ (List.mem_cons_self _ _)

theorem runTick_unit {ρ : Type} (m : Machine ρ) : (runTick m).1.unit = m.unit := by
  unfold runTick
  cases m.ticks <;> rfl

theorem runTick_eq_of_ticks {ρ : Type} (m : Machine ρ) (t : Tick ρ)
    (rest : List (Tick ρ)) (hm : m.ticks = t :: rest) :
    runTick m = ({ m with ticks := rest }, tickEvents m.unit t) := by
  unfold runTick
  rw [hm]

/-- C8: delivery of one event on either channel is isolated per handler. If
a registered handler throws, the problem is caught, wrapped together with the
original value (`RejectionError` / `FulfillmentError`) and reported via
`console.error`; the delivery pass is exactly the concatenation of every
subscriber's invocation in registration order, so every subscriber — in
particular every one after a throwing one — is still invoked with the same
event, and running a deferred notification never changes the unit state (its
outcome, histories, subscriber lists or timer). -/
theorem C8_handler_isolation (ρ : Type) (m : Machine ρ)
    (hs : List (Handler (Err ρ) ρ)) (gs : List (Handler ρ ρ))
    (h : Handler (Err ρ) ρ) (g : Handler ρ ρ) (e : Err ρ) (r : ρ) (p q : Bool)
    (pr pf : Err ρ) (hmemE : h ∈ hs) (hmemR : g ∈ gs) :
    (Event.invokeError h.id e ∈ notifyErrorHandlers hs e p
      ∧ (h.throws e = some pr →
          Event.consoleErrorE (Err.rejection e pr) ∈ notifyErrorHandlers hs e p)
      ∧ notifyErrorHandlers hs e p = (hs.map (fun h2 => handleRejection h2 e)).flatten)
    ∧ (Event.invokeResult g.id r ∈ notifyResultHandlers gs r q
      ∧ (g.throws r = some pf →
          Event.consoleErrorE (Err.fulfillment r pf) ∈ notifyResultHandlers gs r q)
      ∧ notifyResultHandlers gs r q = (gs.map (fun g2 => handleFulfillment g2 r)).flatten)
    ∧ (runTick m).1.unit = m.unit :=
  ⟨⟨mem_notifyErrorHandlers hs h e p hmemE,
    fun hth => mem_diag_notifyErrorHandlers hs h e p pr hmemE hth,
    notifyErrorHandlers_eq_flatten hs e p (by rintro rfl; cases hmemE)⟩,
   ⟨mem_notifyResultHandlers gs g r q hmemR,
    fun hth => mem_diag_notifyResultHandlers gs g r q pf hmemR hth,
    notifyResultHandlers_eq_flatten gs r q (by rintro rfl; cases hmemR)⟩,
   runTick_unit m⟩

/-- Error-channel handler that always throws `Err.user 9`. -/
def wThrower : Handler (Err Nat) Nat := ⟨0, fun _ => some (Err.user 9)⟩

/-- Error-channel handler that never throws. -/
def wQuiet : Handler (Err Nat) Nat := ⟨1, fun _ => none⟩

/-- Result-channel handler that never throws. -/
def wRQuiet : Handler Nat Nat := ⟨2, fun _ => none⟩

/-- Witness for C8: with a throwing handler registered first, the second
handler is still invoked with the same event and the wrapped diagnostic is
reported. -/
theorem C8_handler_isolation_witness :
    wQuiet ∈ [wThrower, wQuiet]
    ∧ Event.invokeError wQuiet.id (Err.user 0)
        ∈ notifyErrorHandlers [wThrower, wQuiet] (Err.user 0) false
    ∧ Event.consoleErrorE (Err.rejection (Err.user 0) (Err.user 9))
        ∈ notifyErrorHandlers [wThrower, wQuiet] (Err.user 0) false
    ∧ (runTick wPending).1.unit = wPending.unit := by
  have H1 := C8_handler_isolation Nat wPending [wThrower, wQuiet] [wRQuiet]
    wQuiet wRQuiet (Err.user 0) 0 false false (Err.user 9) (Err.user 9)
    (List.mem_cons_of_mem _ (List.mem_cons_self _ _)) (List.mem_cons_self _ _)
  have H2 := C8_handler_isolation Nat wPending [wThrower, wQuiet] [wRQuiet]
    wThrower wRQuiet (Err.user 0) 0 false false (Err.user 9) (Err.user 9)
    (List.mem_cons_self _ _) (List.mem_cons_self _ _)
  exact ⟨List.mem_cons_of_mem _ (List.mem_cons_self _ _),
    H1.1.1, H2.1.2.1 rfl, H1.2.2⟩

theorem errDeliveries_handleRejection_ne {ρ : Type} (h : Handler (Err ρ) ρ)
    (e : Err ρ) (i : Nat) (hne : h.id ≠ i) :
    errDeliveries i (handleRejection h e) = [] := by
  unfold handleRejection errDeliveries
  cases hth : h.throws e <;> simp [hth, List.filterMap, hne]

theorem errDeliveries_replay_ne {ρ : Type} (hs : List (Handler (Err ρ) ρ))
    (e : Err ρ) (i : Nat) (hne : ∀ h ∈ hs, h.id ≠ i) :
    errDeliveries i ((hs.map (fun h => handleRejection h e)).flatten) = [] := by
  induction hs with
  | nil => rfl
  | cons h hs ih =>
    rw [List.map_cons, List.flatten_cons, errDeliveries_append,
      errDeliveries_handleRejection_ne h e i (hne h (List.mem_cons_self _ _)),
      ih (fun h2 hm => hne h2 (List.mem_cons_of_mem _ hm))]
    rfl

/-- C10: a handler registered through `errors` after a `rejected` call but
before that call's deferred notification turn has run receives the event
value twice: the registration's synchronous history replay delivers it once,
and the deferred notification pass — which iterates the subscriber list as it
stands at notification time, already including the late handler — delivers it
once more. -/
theorem C10_late_subscriber_double_delivery (ρ : Type) [DecidableEq ρ]
    (m : Machine ρ) (h : Handler (Err ρ) ρ) (e : Err ρ)
    (h0 : m.ticks = [])
    (h1 : e ∉ m.unit.resolvedErrors)
    (h2 : ∀ h3 ∈ m.unit.errorHandlers, h3.id ≠ h.id) :
    (errDeliveries h.id (errorsReg h (rejectedM e false m)).2).count e = 1
    ∧ (errDeliveries h.id (runTick (errorsReg h (rejectedM e false m)).1).2).count e = 1
    ∧ (errDeliveries h.id ((errorsReg h (rejectedM e false m)).2
        ++ (runTick (errorsReg h (rejectedM e false m)).1).2)).count e = 2 := by
  have hreplay : errDeliveries h.id (errorsReg h (rejectedM e false m)).2
      = m.unit.resolvedErrors ++ [e] := by
    show errDeliveries h.id
        (((rejectedM e false m).unit.resolvedErrors.map
          (fun e2 => handleRejection h e2)).flatten) = m.unit.resolvedErrors ++ [e]
    rw [errDeliveries_replay, rejectedM_resolvedErrors]
  have hcount1 : (errDeliveries h.id (errorsReg h (rejectedM e false m)).2).count e = 1 := by
    rw [hreplay, List.count_append, List.count_eq_zero.mpr h1]
    simp
  have hticks : (errorsReg h (rejectedM e false m)).1.ticks
      = Tick.notifyErrors e false :: [] := by
    show (rejectedM e false m).ticks = Tick.notifyErrors e false :: []
    rw [rejectedM_ticks, h0]
    rfl
  have hrun := runTick_eq_of_ticks _ _ _ hticks
  have hhandlers : (errorsReg h (rejectedM e false m)).1.unit.errorHandlers
      = m.unit.errorHandlers ++ [h] := by
    show (rejectedM e false m).unit.errorHandlers ++ [h] = m.unit.errorHandlers ++ [h]
    rw [rejectedM_errorHandlers]
  have htick1 : (errDeliveries h.id (runTick (errorsReg h (rejectedM e false m)).1).2).count e
      = 1 := by
    rw [hrun]
    show (errDeliveries h.id (notifyErrorHandlers
      (errorsReg h (rejectedM e false m)).1.unit.errorHandlers e false)).count e = 1
    rw [hhandlers, notifyErrorHandlers_eq_flatten _ _ _ (by simp),
      List.map_append, List.flatten_append, errDeliveries_append,
      errDeliveries_replay_ne m.unit.errorHandlers e h.id h2]
    simp [errDeliveries_handleRejection]
  refine ⟨hcount1, htick1, ?_⟩
  rw [errDeliveries_append, List.count_append, hcount1, htick1]

/-- Witness for C10 on a fresh pending unit: the late handler is invoked
with the rejection value once at registration and once on the deferred
turn. -/
theorem C10_late_subscriber_double_delivery_witness :
    (wPending.ticks = [] ∧ Err.user 0 ∉ wPending.unit.resolvedErrors)
    ∧ (errDeliveries wQuiet.id
        (errorsReg wQuiet (rejectedM (Err.user 0) false wPending)).2).count (Err.user 0) = 1
    ∧ (errDeliveries wQuiet.id
        (runTick (errorsReg wQuiet (rejectedM (Err.user 0) false wPending)).1).2).count
          (Err.user 0) = 1 := by
  have H := C10_late_subscriber_double_delivery Nat wPending wQuiet (Err.user 0)
    rfl (by simp [wPending, wUninit, newMachine]) (by simp [wPending, wUninit, newMachine])
  exact ⟨⟨rfl, by simp [wPending, wUninit, newMachine]⟩, H.1, H.2.1⟩

theorem rejectedM_timer {ρ : Type} (e : Err ρ) (p : Bool) (m : Machine ρ) :
    (rejectedM e p m).unit.timer = none := by
  unfold rejectedM; dsimp only; rw [resolution_timer]

theorem fulfilledM_timer {ρ : Type} (r : ρ) (p : Bool) (m : Machine ρ) :
    (fulfilledM r p m).unit.timer = none := by
  unfold fulfilledM; dsimp only; rw [resolution_timer]

theorem initialiseM_uninit {ρ : Type} (m : Machine ρ)
    (h : m.unit.outcome = Outcome.Uninitialized) :
    initialiseM m
      = { m with unit :=
          { m.unit with
              outcome := Outcome.Pending,
              timer := if m.unit.timeout = 0 then none
                       else some (m.unit.timeout * 1000) } } := by
  unfold initialiseM
  rw [if_neg (by rw [h]; simp)]

theorem initialiseM_attached {ρ : Type} (m : Machine ρ)
    (h : m.unit.outcome ≠ Outcome.Uninitialized) :
    initialiseM m = rejectedM Err.doubleContract false m := by
  unfold initialiseM
  rw [if_pos h]

theorem applySettleCall_resolvedErrors {ρ : Type} (p : Bool) (m : Machine ρ)
    (c : SettleCall ρ) : ∃ l,
    (applySettleCall p m c).unit.resolvedErrors = m.unit.resolvedErrors ++ l := by
  cases c with
  | done o =>
    cases o with
    | inl r => exact ⟨[], by rw [List.append_nil]; exact fulfilledM_resolvedErrors r p m⟩
    | inr e => exact ⟨[e], rejectedM_resolvedErrors e p m⟩
  | reject e => exact ⟨[e], rejectedM_resolvedErrors e p m⟩

theorem applySettleCall_ticks {ρ : Type} (p : Bool) (m : Machine ρ)
    (c : SettleCall ρ) : ∃ l, (applySettleCall p m c).ticks = m.ticks ++ l := by
  cases c with
  | done o =>
    cases o with
    | inl r => exact ⟨[Tick.notifyResults r p], fulfilledM_ticks r p m⟩
    | inr e => exact ⟨[Tick.notifyErrors e p], rejectedM_ticks e p m⟩
  | reject e => exact ⟨[Tick.notifyErrors e p], rejectedM_ticks e p m⟩

theorem applySettleCall_outcome_terminal {ρ : Type} (p : Bool) (m : Machine ρ)
    (c : SettleCall ρ)
    (h : m.unit.outcome = Outcome.Error ∨ m.unit.outcome = Outcome.Result) :
    (applySettleCall p m c).unit.outcome = m.unit.outcome := by
  have hh : ¬ m.unit.outcome.toNat ≤ 1 := (outcome_high_iff _).mpr h
  cases c with
  | done o =>
    cases o with
    | inl r => exact fulfilledM_outcome_high r p m hh
    | inr e => exact rejectedM_outcome_high e p m hh
  | reject e => exact rejectedM_outcome_high e p m hh

theorem foldlSettle_resolvedErrors {ρ : Type} (p : Bool) (cs : List (SettleCall ρ)) :
    ∀ m : Machine ρ, ∃ l,
    (cs.foldl (applySettleCall p) m).unit.resolvedErrors
      = m.unit.resolvedErrors ++ l := by
  induction cs with
  | nil => intro m; exact ⟨[], by rw [List.append_nil]; rfl⟩
  | cons c cs ih =>
    intro m
    obtain ⟨l2, h2⟩ := ih (applySettleCall p m c)
    obtain ⟨l1, h1⟩ := applySettleCall_resolvedErrors p m c
    exact ⟨l1 ++ l2, by rw [List.foldl_cons, h2, h1, List.append_assoc]⟩

theorem foldlSettle_ticks {ρ : Type} (p : Bool) (cs : List (SettleCall ρ)) :
    ∀ m : Machine ρ, ∃ l, (cs.foldl (applySettleCall p) m).ticks = m.ticks ++ l := by
  induction cs with
  | nil => intro m; exact ⟨[], by rw [List.append_nil]; rfl⟩
  | cons c cs ih =>
    intro m
    obtain ⟨l2, h2⟩ := ih (applySettleCall p m c)
    obtain ⟨l1, h1⟩ := applySettleCall_ticks p m c
    exact ⟨l1 ++ l2, by rw [List.foldl_cons, h2, h1, List.append_assoc]⟩

theorem foldlSettle_outcome_terminal {ρ : Type} (p : Bool) (cs : List (SettleCall ρ)) :
    ∀ m : Machine ρ,
    m.unit.outcome = Outcome.Error ∨ m.unit.outcome = Outcome.Result →
    (cs.foldl (applySettleCall p) m).unit.outcome = m.unit.outcome := by
  induction cs with
  | nil => intro m _; rfl
  | cons c cs ih =>
    intro m h
    have step := applySettleCall_outcome_terminal p m c h
    have hterm : (applySettleCall p m c).unit.outcome = Outcome.Error ∨
        (applySettleCall p m c).unit.outcome = Outcome.Result := by rw [step]; exact h
    calc (List.foldl (applySettleCall p) m (c :: cs)).unit.outcome
        = (cs.foldl (applySettleCall p) (applySettleCall p m c)).unit.outcome := rfl
      _ = (applySettleCall p m c).unit.outcome := ih (applySettleCall p m c) hterm
      _ = m.unit.outcome := step

theorem contracted_resolvedErrors {ρ : Type} (c : Contract ρ) (m : Machine ρ) :
    ∃ l, (contracted c m).unit.resolvedErrors
      = (initialiseM m).unit.resolvedErrors ++ l := by
  cases c with
  | promiseLike => exact ⟨[], by rw [List.append_nil]; rfl⟩
  | job j =>
    obtain ⟨cs, res⟩ := j
    obtain ⟨l1, h1⟩ := foldlSettle_resolvedErrors false cs (initialiseM m)
    cases res with
    | error pb =>
      refine ⟨l1 ++ [Err.work pb], ?_⟩
      show (rejectedM (Err.work pb) false
        (cs.foldl (applySettleCall false) (initialiseM m))).unit.resolvedErrors = _
      rw [rejectedM_resolvedErrors, h1, List.append_assoc]
    | ok w =>
      refine ⟨l1, ?_⟩
      show (cs.foldl (applySettleCall false) (initialiseM m)).unit.resolvedErrors = _
      exact h1

theorem contracted_ticks {ρ : Type} (c : Contract ρ) (m : Machine ρ) :
    ∃ l, (contracted c m).ticks = (initialiseM m).ticks ++ l := by
  cases c with
  | promiseLike => exact ⟨[], by rw [List.append_nil]; rfl⟩
  | job j =>
    obtain ⟨cs, res⟩ := j
    obtain ⟨l1, h1⟩ := foldlSettle_ticks false cs (initialiseM m)
    cases res with
    | error pb =>
      refine ⟨l1 ++ [Tick.notifyErrors (Err.work pb) false], ?_⟩
      show (rejectedM (Err.work pb) false
        (cs.foldl (applySettleCall false) (initialiseM m))).ticks = _
      rw [rejectedM_ticks, h1, List.append_assoc]
    | ok w =>
      refine ⟨l1, ?_⟩
      show (cs.foldl (applySettleCall false) (initialiseM m)).ticks = _
      exact h1

theorem contracted_outcome_terminal {ρ : Type} (c : Contract ρ) (m : Machine ρ)
    (h : (initialiseM m).unit.outcome = Outcome.Error
      ∨ (initialiseM m).unit.outcome = Outcome.Result) :
    (contracted c m).unit.outcome = (initialiseM m).unit.outcome := by
  cases c with
  | promiseLike => rfl
  | job j =>
    obtain ⟨cs, res⟩ := j
    have hfold := foldlSettle_outcome_terminal false cs (initialiseM m) h
    have hterm : (cs.foldl (applySettleCall false) (initialiseM m)).unit.outcome
        = Outcome.Error ∨ (cs.foldl (applySettleCall false) (initialiseM m)).unit.outcome
        = Outcome.Result := by rw [hfold]; exact h
    cases res with
    | error pb =>
      show (rejectedM (Err.work pb) false
        (cs.foldl (applySettleCall false) (initialiseM m))).unit.outcome = _
      rw [rejectedM_outcome_high _ _ _ ((outcome_high_iff _).mpr hterm), hfold]
    | ok w =>
      show (cs.foldl (applySettleCall false) (initialiseM m)).unit.outcome = _
      exact hfold

/-- C9: attaching a contract to a Unit that is not Uninitialized — a second
contract, whatever the current outcome — is routed through `rejected` with
the double-contract error before anything else: the error history grows by
the double-contract error first (any further entries coming only from the
contract body), a deferred notification for it is queued first, a Pending
unit's outcome is thereby fixed to Error, and the double-contract error is a
different value from the timeout error. -/
theorem C9_double_contract (ρ : Type) (m : Machine ρ) (c : Contract ρ)
    (hne : m.unit.outcome ≠ Outcome.Uninitialized) :
    (∃ l, (contracted c m).unit.resolvedErrors
        = m.unit.resolvedErrors ++ Err.doubleContract :: l)
    ∧ (∃ l, (contracted c m).ticks
        = m.ticks ++ Tick.notifyErrors Err.doubleContract false :: l)
    ∧ (m.unit.outcome = Outcome.Pending →
        (contracted c m).unit.outcome = Outcome.Error)
    ∧ (Err.doubleContract : Err ρ) ≠ Err.timeout := by
  have hinit : initialiseM m = rejectedM Err.doubleContract false m :=
    initialiseM_attached m hne
  refine ⟨?_, ?_, ?_, fun hc => Err.noConfusion hc⟩
  · obtain ⟨l, hl⟩ := contracted_resolvedErrors c m
    refine ⟨l, ?_⟩
    rw [hl, hinit, rejectedM_resolvedErrors, List.append_assoc]
    rfl
  · obtain ⟨l, hl⟩ := contracted_ticks c m
    refine ⟨l, ?_⟩
    rw [hl, hinit, rejectedM_ticks, List.append_assoc]
    rfl
  · intro hp
    have hlow : m.unit.outcome.toNat ≤ 1 := by rw [hp]; exact Nat.le_refl 1
    have hout : (initialiseM m).unit.outcome = Outcome.Error := by
      rw [hinit]; exact rejectedM_outcome_low _ _ _ hlow
    rw [contracted_outcome_terminal c m (Or.inl hout), hout]

/-- Witness for C9 at a Pending unit and a promise-like second contract. -/
theorem C9_double_contract_witness :
    wPending.unit.outcome ≠ Outcome.Uninitialized
    ∧ (∃ l, (contracted Contract.promiseLike wPending).unit.resolvedErrors
        = wPending.unit.resolvedErrors ++ Err.doubleContract :: l)
    ∧ (contracted Contract.promiseLike wPending).unit.outcome = Outcome.Error := by
  have H := C9_double_contract Nat wPending Contract.promiseLike (by decide)
  exact ⟨by decide, H.1, H.2.2.1 rfl⟩

theorem fireTimeout_work_throw {ρ : Type} (m : Machine ρ) (d : Nat) (w : Work ρ)
    (pb : Err ρ) (h : m.unit.timer = some d) (hw : m.unit.work = some w)
    (hct : w.cancelThrows = some pb) :
    fireTimeout m = (rejectedM Err.timeout m.unit.isPromiseContract m,
      [Event.cancelWork, Event.consoleErrorE (Err.cancellation pb)]) := by
  unfold fireTimeout
  rw [h, hw]
  show (rejectedM Err.timeout m.unit.isPromiseContract m,
    Event.cancelWork :: (match w.cancelThrows with
      | some problem => [Event.consoleErrorE (Err.cancellation problem)]
      | none => [])) = _
  rw [hct]

theorem fireTimeout_work_nothrow {ρ : Type} (m : Machine ρ) (d : Nat) (w : Work ρ)
    (h : m.unit.timer = some d) (hw : m.unit.work = some w)
    (hct : w.cancelThrows = none) :
    fireTimeout m = (rejectedM Err.timeout m.unit.isPromiseContract m,
      [Event.cancelWork]) := by
  unfold fireTimeout
  rw [h, hw]
  show (rejectedM Err.timeout m.unit.isPromiseContract m,
    Event.cancelWork :: (match w.cancelThrows with
      | some problem => [Event.consoleErrorE (Err.cancellation problem)]
      | none => [])) = _
  rw [hct]

theorem fireTimeout_nowork {ρ : Type} (m : Machine ρ) (d : Nat)
    (h : m.unit.timer = some d) (hw : m.unit.work = none) :
    fireTimeout m = (rejectedM Err.timeout m.unit.isPromiseContract m, []) := by
  unfold fireTimeout
  rw [h, hw]

theorem fireTimeout_fst {ρ : Type} (m : Machine ρ) (d : Nat)
    (h : m.unit.timer = some d) :
    (fireTimeout m).1 = rejectedM Err.timeout m.unit.isPromiseContract m := by
  unfold fireTimeout
  rw [h]

/-- C5: `initialise` (reached from `contracted` on a fresh unit) arms a
timer for `timeout * 1000` milliseconds whenever `options.timeout` is not
`0`, and attaching a promise-like contract leaves it armed.  When the timer
fires while still pending, a captured cancelable work handle has its
`cancel()` invoked exactly once, a throwing `cancel` is reported as a
wrapped `CancellationError` diagnostic instead of propagating, and the unit
is rejected with the dedicated timeout error regardless — timeout goes to
the error history, a notification is queued, the timer is cleared and a
Pending outcome becomes Error; with no cancelable handle nothing is
cancelled and the timeout rejection still happens. -/
theorem C5_timeout_cancellation (ρ : Type) [DecidableEq ρ]
    (m1 m2 m3 : Machine ρ) (d2 d3 : Nat) (w : Work ρ) (pb : Err ρ)
    (h1a : m1.unit.outcome = Outcome.Uninitialized) (h1b : m1.unit.timeout ≠ 0)
    (h2a : m2.unit.timer = some d2) (h2b : m2.unit.work = some w)
    (h3a : m3.unit.timer = some d3) (h3b : m3.unit.work = none) :
    ((initialiseM m1).unit.timer = some (m1.unit.timeout * 1000)
      ∧ (contracted Contract.promiseLike m1).unit.timer
          = some (m1.unit.timeout * 1000))
    ∧ ((fireTimeout m2).2.count Event.cancelWork = 1
      ∧ (w.cancelThrows = some pb →
          Event.consoleErrorE (Err.cancellation pb) ∈ (fireTimeout m2).2)
      ∧ (fireTimeout m2).1.unit.resolvedErrors
          = m2.unit.resolvedErrors ++ [Err.timeout]
      ∧ (fireTimeout m2).1.ticks
          = m2.ticks ++ [Tick.notifyErrors Err.timeout m2.unit.isPromiseContract]
      ∧ (fireTimeout m2).1.unit.timer = none
      ∧ (m2.unit.outcome = Outcome.Pending →
          (fireTimeout m2).1.unit.outcome = Outcome.Error))
    ∧ ((fireTimeout m3).2 = []
      ∧ (fireTimeout m3).1.unit.resolvedErrors
          = m3.unit.resolvedErrors ++ [Err.timeout]) := by
  have harm : (initialiseM m1).unit.timer = some (m1.unit.timeout * 1000) := by
    rw [initialiseM_uninit m1 h1a]
    show (if m1.unit.timeout = 0 then none else some (m1.unit.timeout * 1000))
      = some (m1.unit.timeout * 1000)
    rw [if_neg h1b]
  refine ⟨⟨harm, harm⟩, ⟨?_, ?_, ?_, ?_, ?_, ?_⟩, ⟨?_, ?_⟩⟩
  · cases hct : w.cancelThrows with
    | some pb2 =>
      rw [fireTimeout_work_throw m2 d2 w pb2 h2a h2b hct]
      simp
    | none =>
      rw [fireTimeout_work_nothrow m2 d2 w h2a h2b hct]
      simp
  · intro hth
    rw [fireTimeout_work_throw m2 d2 w pb h2a h2b hth]
    simp
  · rw [fireTimeout_fst m2 d2 h2a, rejectedM_resolvedErrors]
  · rw [fireTimeout_fst m2 d2 h2a, rejectedM_ticks]
  · rw [fireTimeout_fst m2 d2 h2a, rejectedM_timer]
  · intro hp
    rw [fireTimeout_fst m2 d2 h2a]
    exact rejectedM_outcome_low _ _ _ (by rw [hp]; exact Nat.le_refl 1)
  · rw [fireTimeout_nowork m3 d3 h3a h3b]
  · rw [fireTimeout_nowork m3 d3 h3a h3b]
    exact rejectedM_resolvedErrors _ _ _

/-- A pending unit with an armed 5000 ms timer and a cancelable work handle
whose `cancel()` throws `Err.user 7`. -/
def wTimed : Machine Nat :=
  { wPending with unit :=
      { wPending.unit with
          timer := some 5000,
          work := some { cancelThrows := some (Err.user 7) } } }

/-- A pending unit with an armed timer and no work handle. -/
def wTimedNoWork : Machine Nat :=
  { wPending with unit := { wPending.unit with timer := some 5000 } }

/-- Witness for C5: arming on a fresh unit with timeout 8, and expiry on an
armed pending unit with a throwing cancelable handle. -/
theorem C5_timeout_cancellation_witness :
    (wUninit.unit.outcome = Outcome.Uninitialized ∧ wUninit.unit.timeout ≠ 0
      ∧ wTimed.unit.timer = some 5000 ∧ wTimedNoWork.unit.work = none)
    ∧ (initialiseM wUninit).unit.timer = some (wUninit.unit.timeout * 1000)
    ∧ (fireTimeout wTimed).2.count Event.cancelWork = 1
    ∧ Event.consoleErrorE (Err.cancellation (Err.user 7)) ∈ (fireTimeout wTimed).2
    ∧ (fireTimeout wTimed).1.unit.outcome = Outcome.Error
    ∧ (fireTimeout wTimedNoWork).2 = [] := by
  have H := C5_timeout_cancellation Nat wUninit wTimed wTimedNoWork 5000 5000
    { cancelThrows := some (Err.user 7) } (Err.user 7)
    rfl (by decide) rfl rfl rfl rfl
  exact ⟨⟨rfl, by decide, rfl, rfl⟩,
    H.1.1, H.2.1.1, H.2.1.2.1 rfl, H.2.1.2.2.2.2.2 rfl, H.2.2.1⟩

/-- C7: `contracted` with a callback-style job invokes the job synchronously
at attach time: every call the job makes on its two callbacks is applied in
order to the unit just initialised; handing an `Error`-tagged value to the
settle callback is exactly a `rejected` call (identical to using the reject
callback), any other value is a `fulfilled` call; a job that throws ends in
an immediate rejection with a `WorkError` wrapping the thrown problem, and a
job that returns has its (possibly cancelable) return captured as the work
handle with no further state change.  On a fresh unit a job that settles
with an `Error`-tagged value leaves the unit rejected with that error. -/
theorem C7_job_adapter (ρ : Type) (m m4 : Machine ρ) (e : Err ρ) (r : ρ)
    (cs : List (SettleCall ρ)) (pb : Err ρ) (w : Option (Work ρ))
    (hm4 : m4.unit.outcome = Outcome.Uninitialized) :
    (applySettleCall false m (SettleCall.done (Sum.inr e)) = rejectedM e false m
      ∧ applySettleCall false m (SettleCall.reject e) = rejectedM e false m)
    ∧ applySettleCall false m (SettleCall.done (Sum.inl r)) = fulfilledM r false m
    ∧ contracted (Contract.job ⟨cs, Except.error pb⟩) m
        = rejectedM (Err.work pb) false
            (cs.foldl (applySettleCall false) (initialiseM m))
    ∧ ((contracted (Contract.job ⟨cs, Except.ok w⟩) m).unit.work = w
      ∧ (contracted (Contract.job ⟨cs, Except.ok w⟩) m).ticks
          = (cs.foldl (applySettleCall false) (initialiseM m)).ticks
      ∧ (contracted (Contract.job ⟨cs, Except.ok w⟩) m).unit.resolvedErrors
          = (cs.foldl (applySettleCall false) (initialiseM m)).unit.resolvedErrors
      ∧ (contracted (Contract.job ⟨cs, Except.ok w⟩) m).unit.resolvedResults
          = (cs.foldl (applySettleCall false) (initialiseM m)).unit.resolvedResults)
    ∧ ((contracted (Contract.job ⟨[SettleCall.done (Sum.inr e)], Except.ok none⟩)
          m4).unit.resolvedErrors = m4.unit.resolvedErrors ++ [e]
      ∧ (contracted (Contract.job ⟨[SettleCall.done (Sum.inr e)], Except.ok none⟩)
          m4).unit.outcome = Outcome.Error) := by
  refine ⟨⟨rfl, rfl⟩, rfl, rfl, ⟨rfl, rfl, rfl, rfl⟩, ⟨?_, ?_⟩⟩
  · show (rejectedM e false (initialiseM m4)).unit.resolvedErrors
      = m4.unit.resolvedErrors ++ [e]
    rw [rejectedM_resolvedErrors, initialiseM_uninit m4 hm4]
  · show (rejectedM e false (initialiseM m4)).unit.outcome = Outcome.Error
    refine rejectedM_outcome_low _ _ _ ?_
    rw [initialiseM_uninit m4 hm4]
    exact Nat.le_refl 1

/-- Witness for C7 on a fresh unit: the job settles with an `Error`-tagged
value and the unit ends rejected with it. -/
theorem C7_job_adapter_witness :
    wUninit.unit.outcome = Outcome.Uninitialized
    ∧ (contracted (Contract.job ⟨[SettleCall.done (Sum.inr (Err.user 3))],
        Except.ok none⟩) wUninit).unit.resolvedErrors
        = wUninit.unit.resolvedErrors ++ [Err.user 3]
    ∧ (contracted (Contract.job ⟨[SettleCall.done (Sum.inr (Err.user 3))],
        Except.ok none⟩) wUninit).unit.outcome = Outcome.Error := by
  have H := C7_job_adapter Nat wUninit wUninit (Err.user 3) 0 [] (Err.user 1) none rfl
  exact ⟨rfl, H.2.2.2.2.1, H.2.2.2.2.2⟩

/-- The `guarded` closure shared by the two subscriptions `and`/`or` place
on the same parent: given the channel type being delivered and the parent's
current outcome, return whether to skip together with the new value of the
shared `resolved` flag (a non-matching channel skips without touching
`resolved`; the matching channel returns the previous flag and sets it). -/
def guarded (t current : Outcome) (resolved : Bool) : Bool × Bool :=
  if t ≠ current then (true, resolved) else (resolved, true)

/-- One delivery a parent Unit makes to the pair of subscribers a combinator
registered on it: an error-channel or a result-channel event. -/
inductive ParentEvent (ρ : Type) where
| err : Err ρ → ParentEvent ρ
| res : ρ → ParentEvent ρ

/-- State threaded through the pair of subscribers a single `and`/`or` call
registers: the shared one-shot `resolved` flag, the child machine they
drive, and instrumentation counting continuation invocations and
child-driving actions. -/
structure AndState (ρ : Type) where
  resolved : Bool
  child : Machine ρ
  contCalls : Nat
  drives : Nat

/-- The pair of subscribers registered by `and(fulfilled)`, as one step
function: on a parent error, when not guarded, forward the very same error
to the child as a rejection (the continuation is not consulted); on a parent
result, when not guarded, invoke the continuation and attach the contract it
returns to the child, or reject the child with a `FulfillmentError` wrapping
the result and the problem if the continuation throws.  `current` is the
parent's outcome as read by `guarded` at invocation time. -/
def andStep {ρ : Type} (k : ρ → Except (Err ρ) (Contract ρ)) (current : Outcome)
    (st : AndState ρ) : ParentEvent ρ → AndState ρ
| ParentEvent.err e =>
  if (guarded Outcome.Error current st.resolved).1 then
    { st with resolved := (guarded Outcome.Error current st.resolved).2 }
  else
    { st with
        resolved := (guarded Outcome.Error current st.resolved).2,
        child := rejectedM e false st.child,
        drives := st.drives + 1 }
| ParentEvent.res r =>
  if (guarded Outcome.Result current st.resolved).1 then
    { st with resolved := (guarded Outcome.Result current st.resolved).2 }
  else
    match k r with
    | Except.ok c =>
      { st with
          resolved := (guarded Outcome.Result current st.resolved).2,
          child := contracted c st.child,
          contCalls := st.contCalls + 1,
          drives := st.drives + 1 }
    | Except.error problem =>
      { st with
          resolved := (guarded Outcome.Result current st.resolved).2,
          child := rejectedM (Err.fulfillment r problem) false st.child,
          contCalls := st.contCalls + 1,
          drives := st.drives + 1 }

/-- The pair of subscribers registered by `or(rejected)`: on a parent error,
when not guarded, invoke the recovery continuation and attach the returned
contract to the child, or reject the child with a `RejectionError` wrapping
the error and the problem if it throws; on a parent result, when not
guarded, forward the result unchanged to the child. -/
def orStep {ρ : Type} (j : Err ρ → Except (Err ρ) (Contract ρ)) (current : Outcome)
    (st : AndState ρ) : ParentEvent ρ → AndState ρ
| ParentEvent.err e =>
  if (guarded Outcome.Error current st.resolved).1 then
    { st with resolved := (guarded Outcome.Error current st.resolved).2 }
  else
    match j e with
    | Except.ok c =>
      { st with
          resolved := (guarded Outcome.Error current st.resolved).2,
          child := contracted c st.child,
          contCalls := st.contCalls + 1,
          drives := st.drives + 1 }
    | Except.error problem =>
      { st with
          resolved := (guarded Outcome.Error current st.resolved).2,
          child := rejectedM (Err.rejection e problem) false st.child,
          contCalls := st.contCalls + 1,
          drives := st.drives + 1 }
| ParentEvent.res r =>
  if (guarded Outcome.Result current st.resolved).1 then
    { st with resolved := (guarded Outcome.Result current st.resolved).2 }
  else
    { st with
        resolved := (guarded Outcome.Result current st.resolved).2,
        child := fulfilledM r false st.child,
        drives := st.drives + 1 }

/-- Run the `and` subscriber pair over a sequence of parent deliveries. -/
def andRun {ρ : Type} (k : ρ → Except (Err ρ) (Contract ρ)) (current : Outcome)
    (st : AndState ρ) (evs : List (ParentEvent ρ)) : AndState ρ :=
  evs.foldl (andStep k current) st

/-- Run the `or` subscriber pair over a sequence of parent deliveries. -/
def orRun {ρ : Type} (j : Err ρ → Except (Err ρ) (Contract ρ)) (current : Outcome)
    (st : AndState ρ) (evs : List (ParentEvent ρ)) : AndState ρ :=
  evs.foldl (orStep j current) st

theorem guarded_true_pair (t current : Outcome) :
    guarded t current true = (true, true) := by
  unfold guarded; split <;> rfl

theorem andStep_fixed {ρ : Type} (k : ρ → Except (Err ρ) (Contract ρ))
    (current : Outcome) (st : AndState ρ) (ev : ParentEvent ρ)
    (h : st.resolved = true) : andStep k current st ev = st := by
  obtain ⟨b, ch, n1, n2⟩ := st
  dsimp only at h
  subst h
  cases ev with
  | err e => simp [andStep, guarded_true_pair]
  | res r => simp [andStep, guarded_true_pair]

theorem orStep_fixed {ρ : Type} (j : Err ρ → Except (Err ρ) (Contract ρ))
    (current : Outcome) (st : AndState ρ) (ev : ParentEvent ρ)
    (h : st.resolved = true) : orStep j current st ev = st := by
  obtain ⟨b, ch, n1, n2⟩ := st
  dsimp only at h
  subst h
  cases ev with
  | err e => simp [orStep, guarded_true_pair]
  | res r => simp [orStep, guarded_true_pair]

theorem andRun_fixed {ρ : Type} (k : ρ → Except (Err ρ) (Contract ρ))
    (current : Outcome) (evs : List (ParentEvent ρ)) (st : AndState ρ)
    (h : st.resolved = true) : andRun k current st evs = st := by
  induction evs generalizing st with
  | nil => rfl
  | cons ev evs ih =>
    show andRun k current (andStep k current st ev) evs = st
    rw [andStep_fixed k current st ev h]
    exact ih st h

theorem orRun_fixed {ρ : Type} (j : Err ρ → Except (Err ρ) (Contract ρ))
    (current : Outcome) (evs : List (ParentEvent ρ)) (st : AndState ρ)
    (h : st.resolved = true) : orRun j current st evs = st := by
  induction evs generalizing st with
  | nil => rfl
  | cons ev evs ih =>
    show orRun j current (orStep j current st ev) evs = st
    rw [orStep_fixed j current st ev h]
    exact ih st h

theorem andStep_split {ρ : Type} (k : ρ → Except (Err ρ) (Contract ρ))
    (current : Outcome) (st : AndState ρ) (ev : ParentEvent ρ)
    (h : st.resolved = false) :
    andStep k current st ev = st
    ∨ ((andStep k current st ev).resolved = true
        ∧ (andStep k current st ev).drives = st.drives + 1) := by
  obtain ⟨b, ch, n1, n2⟩ := st
  dsimp only at h
  subst h
  cases ev with
  | err e =>
    by_cases hc : Outcome.Error = current
    · subst hc
      right
      constructor <;> simp [andStep, guarded]
    · left
      simp [andStep, guarded, hc]
  | res r =>
    by_cases hc : Outcome.Result = current
    · subst hc
      right
      cases hk : k r with
      | ok c => constructor <;> simp [andStep, guarded, hk]
      | error pb => constructor <;> simp [andStep, guarded, hk]
    · left
      simp [andStep, guarded, hc]

theorem orStep_split {ρ : Type} (j : Err ρ → Except (Err ρ) (Contract ρ))
    (current : Outcome) (st : AndState ρ) (ev : ParentEvent ρ)
    (h : st.resolved = false) :
    orStep j current st ev = st
    ∨ ((orStep j current st ev).resolved = true
        ∧ (orStep j current st ev).drives = st.drives + 1) := by
  obtain ⟨b, ch, n1, n2⟩ := st
  dsimp only at h
  subst h
  cases ev with
  | err e =>
    by_cases hc : Outcome.Error = current
    · subst hc
      right
      cases hj : j e with
      | ok c => constructor <;> simp [orStep, guarded, hj]
      | error pb => constructor <;> simp [orStep, guarded, hj]
    · left
      simp [orStep, guarded, hc]
  | res r =>
    by_cases hc : Outcome.Result = current
    · subst hc
      right
      constructor <;> simp [orStep, guarded]
    · left
      simp [orStep, guarded, hc]

theorem andRun_drives {ρ : Type} (k : ρ → Except (Err ρ) (Contract ρ))
    (current : Outcome) (evs : List (ParentEvent ρ)) :
    ∀ st : AndState ρ, st.resolved = false →
    (andRun k current st evs).drives ≤ st.drives + 1 := by
  induction evs with
  | nil => intro st _; exact Nat.le_succ _
  | cons ev evs ih =>
    intro st h
    show (andRun k current (andStep k current st ev) evs).drives ≤ st.drives + 1
    rcases andStep_split k current st ev h with heq | ⟨hres, hdr⟩
    · rw [heq]
      exact ih st h
    · rw [andRun_fixed k current evs _ hres, hdr]

theorem orRun_drives {ρ : Type} (j : Err ρ → Except (Err ρ) (Contract ρ))
    (current : Outcome) (evs : List (ParentEvent ρ)) :
    ∀ st : AndState ρ, st.resolved = false →
    (orRun j current st evs).drives ≤ st.drives + 1 := by
  induction evs with
  | nil => intro st _; exact Nat.le_succ _
  | cons ev evs ih =>
    intro st h
    show (orRun j current (orStep j current st ev) evs).drives ≤ st.drives + 1
    rcases orStep_split j current st ev h with heq | ⟨hres, hdr⟩
    · rw [heq]
      exact ih st h
    · rw [orRun_fixed j current evs _ hres, hdr]

theorem andStep_contCalls_err {ρ : Type} (k : ρ → Except (Err ρ) (Contract ρ))
    (st : AndState ρ) (ev : ParentEvent ρ) :
    (andStep k Outcome.Error st ev).contCalls = st.contCalls := by
  cases ev with
  | err e =>
    simp only [andStep]
    split <;> rfl
  | res r => rfl

theorem andRun_contCalls_err {ρ : Type} (k : ρ → Except (Err ρ) (Contract ρ))
    (evs : List (ParentEvent ρ)) : ∀ st : AndState ρ,
    (andRun k Outcome.Error st evs).contCalls = st.contCalls := by
  induction evs with
  | nil => intro st; rfl
  | cons ev evs ih =>
    intro st
    show (andRun k Outcome.Error (andStep k Outcome.Error st ev) evs).contCalls = _
    rw [ih (andStep k Outcome.Error st ev), andStep_contCalls_err]

theorem orStep_contCalls_res {ρ : Type} (j : Err ρ → Except (Err ρ) (Contract ρ))
    (st : AndState ρ) (ev : ParentEvent ρ) :
    (orStep j Outcome.Result st ev).contCalls = st.contCalls := by
  cases ev with
  | err e => rfl
  | res r =>
    simp only [orStep]
    split <;> rfl

theorem orRun_contCalls_res {ρ : Type} (j : Err ρ → Except (Err ρ) (Contract ρ))
    (evs : List (ParentEvent ρ)) : ∀ st : AndState ρ,
    (orRun j Outcome.Result st evs).contCalls = st.contCalls := by
  induction evs with
  | nil => intro st; rfl
  | cons ev evs ih =>
    intro st
    show (orRun j Outcome.Result (orStep j Outcome.Result st ev) evs).contCalls = _
    rw [ih (orStep j Outcome.Result st ev), orStep_contCalls_res]

/-- C3: across the pair of subscribers that one `and` (resp. `or`) call
registers on the same parent, only the branch matching the parent's latched
outcome drives the child, at most once.  For `and`: a first parent error is
forwarded unchanged as a rejection of the child without consulting the
continuation (over any delivery sequence on an Error-outcome parent the
continuation-invocation count stays zero); a first parent result invokes
`continuation(result)` and attaches the returned contract to the child,
while a throwing continuation rejects the child with a `FulfillmentError`
wrapping result and problem; the subscriber on the channel not matching the
known outcome is a no-op, as is either subscriber once the shared guard is
set, and over any delivery sequence the child is driven at most once.  For
`or`, symmetrically: a first parent error invokes the recovery continuation
(a throw rejecting the child with a wrapped `RejectionError`), a first
parent result is forwarded unchanged, and the child is driven at most
once. -/
theorem C3_matching_branch_drives_once (ρ : Type)
    (k : ρ → Except (Err ρ) (Contract ρ)) (j : Err ρ → Except (Err ρ) (Contract ρ))
    (ch : Machine ρ) (st : AndState ρ) (current : Outcome) (ev : ParentEvent ρ)
    (e : Err ρ) (r : ρ) (c : Contract ρ) (pb : Err ρ)
    (evs : List (ParentEvent ρ)) :
    (andStep k Outcome.Error ⟨false, ch, 0, 0⟩ (ParentEvent.err e)
        = ⟨true, rejectedM e false ch, 0, 1⟩)
    ∧ (k r = Except.ok c →
        andStep k Outcome.Result ⟨false, ch, 0, 0⟩ (ParentEvent.res r)
          = ⟨true, contracted c ch, 1, 1⟩)
    ∧ (k r = Except.error pb →
        andStep k Outcome.Result ⟨false, ch, 0, 0⟩ (ParentEvent.res r)
          = ⟨true, rejectedM (Err.fulfillment r pb) false ch, 1, 1⟩)
    ∧ (current ≠ Outcome.Error → andStep k current st (ParentEvent.err e) = st)
    ∧ (current ≠ Outcome.Result → andStep k current st (ParentEvent.res r) = st)
    ∧ (st.resolved = true → andStep k current st ev = st)
    ∧ (andRun k current ⟨false, ch, 0, 0⟩ evs).drives ≤ 1
    ∧ (andRun k Outcome.Error ⟨false, ch, 0, 0⟩ evs).contCalls = 0
    ∧ (j e = Except.ok c →
        orStep j Outcome.Error ⟨false, ch, 0, 0⟩ (ParentEvent.err e)
          = ⟨true, contracted c ch, 1, 1⟩)
    ∧ (j e = Except.error pb →
        orStep j Outcome.Error ⟨false, ch, 0, 0⟩ (ParentEvent.err e)
          = ⟨true, rejectedM (Err.rejection e pb) false ch, 1, 1⟩)
    ∧ (orStep j Outcome.Result ⟨false, ch, 0, 0⟩ (ParentEvent.res r)
        = ⟨true, fulfilledM r false ch, 0, 1⟩)
    ∧ (current ≠ Outcome.Error → orStep j current st (ParentEvent.err e) = st)
    ∧ (st.resolved = true → orStep j current st ev = st)
    ∧ (orRun j current ⟨false, ch, 0, 0⟩ evs).drives ≤ 1
    ∧ (orRun j Outcome.Result ⟨false, ch, 0, 0⟩ evs).contCalls = 0 := by
  refine ⟨rfl, ?_, ?_, ?_, ?_, andStep_fixed k current st ev,
    andRun_drives k current evs ⟨false, ch, 0, 0⟩ rfl,
    andRun_contCalls_err k evs ⟨false, ch, 0, 0⟩, ?_, ?_, rfl, ?_,
    orStep_fixed j current st ev,
    orRun_drives j current evs ⟨false, ch, 0, 0⟩ rfl,
    orRun_contCalls_res j evs ⟨false, ch, 0, 0⟩⟩
  · intro hk
    simp [andStep, guarded, hk]
  · intro hk
    simp [andStep, guarded, hk]
  · intro h
    have hg : guarded Outcome.Error current st.resolved = (true, st.resolved) := by
      unfold guarded
      rw [if_pos (Ne.symm h)]
    simp only [andStep, hg]
    rfl
  · intro h
    have hg : guarded Outcome.Result current st.resolved = (true, st.resolved) := by
      unfold guarded
      rw [if_pos (Ne.symm h)]
    simp only [andStep, hg]
    rfl
  · intro hj
    simp [orStep, guarded, hj]
  · intro hj
    simp [orStep, guarded, hj]
  · intro h
    have hg : guarded Outcome.Error current st.resolved = (true, st.resolved) := by
      unfold guarded
      rw [if_pos (Ne.symm h)]
    simp only [orStep, hg]
    rfl

/-- Witness for C3 at a concrete continuation and delivery sequence. -/
theorem C3_matching_branch_drives_once_witness :
    (andStep (fun _ => Except.ok Contract.promiseLike) Outcome.Error
        ⟨false, wPending, 0, 0⟩ (ParentEvent.err (Err.user 0))
      = ⟨true, rejectedM (Err.user 0) false wPending, 0, 1⟩)
    ∧ (andStep (fun _ => Except.ok Contract.promiseLike) Outcome.Result
        ⟨false, wPending, 0, 0⟩ (ParentEvent.res 5)
      = ⟨true, contracted Contract.promiseLike wPending, 1, 1⟩)
    ∧ (andRun (fun _ => Except.ok Contract.promiseLike) Outcome.Error
        ⟨false, wPending, 0, 0⟩
        [ParentEvent.err (Err.user 0), ParentEvent.err (Err.user 1),
         ParentEvent.res 5]).drives ≤ 1
    ∧ (orStep (fun _ => Except.ok Contract.promiseLike) Outcome.Result
        ⟨false, wPending, 0, 0⟩ (ParentEvent.res 5)
      = ⟨true, fulfilledM 5 false wPending, 0, 1⟩) := by
  have H := C3_matching_branch_drives_once Nat
    (fun _ => Except.ok Contract.promiseLike)
    (fun _ => Except.ok Contract.promiseLike)
    wPending ⟨false, wPending, 0, 0⟩ Outcome.Error (ParentEvent.err (Err.user 0))
    (Err.user 0) 5 Contract.promiseLike (Err.user 1)
    [ParentEvent.err (Err.user 0), ParentEvent.err (Err.user 1), ParentEvent.res 5]
  exact ⟨H.1, H.2.1 rfl, H.2.2.2.2.2.2.1, H.2.2.2.2.2.2.2.2.2.2.1⟩

/-- Behaviour of a user continuation handed to `then`: applied to a settled
value it either throws a problem, returns a plain value (`Sum.inl`), or
returns a promise-like deferred value (`Sum.inr`). -/
def UserCont (α ρ : Type) : Type := α → Except (Err ρ) (Sum ρ Unit)

/-- Effect on the outer derived tasklet of the `or`-continuation `then`
builds, when the parent delivered error `e` (source lines 281-298): with no
`onrejected`, forward the rejection (promise-adapted); otherwise translate
the error through `onrejected` — a returned promise-like value is attached
as a contract, a plain value fulfills, and a throw rejects with a
`RejectionError` wrapping the error and the problem.  (The continuation then
also settles the intermediate `or` child through its own `otherwise`
callback; the chain silences that child with no-op subscribers.) -/
def thenOrEffect {ρ : Type} (onrejected : Option (UserCont (Err ρ) ρ)) (e : Err ρ)
    (t : Machine ρ) : Machine ρ :=
  match onrejected with
  | none => rejectedM e true t
  | some f =>
    match f e with
    | Except.ok (Sum.inl v) => fulfilledM v true t
    | Except.ok (Sum.inr _) => contracted Contract.promiseLike t
    | Except.error problem => rejectedM (Err.rejection e problem) true t

/-- Effect on the outer derived tasklet of the `and`-continuation `then`
builds, when the parent delivered result `r` (source lines 299-312). -/
def thenAndEffect {ρ : Type} (onfulfilled : UserCont ρ ρ) (r : ρ)
    (t : Machine ρ) : Machine ρ :=
  match onfulfilled r with
  | Except.ok (Sum.inl v) => fulfilledM v true t
  | Except.ok (Sum.inr _) => contracted Contract.promiseLike t
  | Except.error problem => rejectedM (Err.fulfillment r problem) true t

/-- The `or`/`and` chain `then` registers on the parent when a fulfillment
continuation is present, described by the two continuations' effects on the
outer derived tasklet. -/
structure ThenChain (ρ : Type) where
  orEffect : Err ρ → Machine ρ → Machine ρ
  andEffect : ρ → Machine ρ → Machine ρ

/-- Model of `Tasklet.then(onfulfilled?, onrejected?)` called on a parent
unit: the derived tasklet is constructed with `timeout = 0`; when no
`onfulfilled` is supplied it is immediately rejected (promise-adapted) with
the must-supply-handler error and no chain is built on the parent; otherwise
the derived tasklet starts untouched and the `or`/`and` chain carrying the
two continuations' effects is built. -/
def thenFn {ρ : Type} (_parent : Machine ρ) (onfulfilled : Option (UserCont ρ ρ))
    (onrejected : Option (UserCont (Err ρ) ρ)) :
    Machine ρ × Option (ThenChain ρ) :=
  match onfulfilled with
  | none => (rejectedM Err.mustSupplyHandler true (newMachine 0), none)
  | some f => (newMachine 0, some ⟨thenOrEffect onrejected, thenAndEffect f⟩)

/-- C6: calling `then` with no fulfillment continuation yields a derived
unit (built with `timeout = 0`) that is immediately rejected with the
must-supply-handler error: its outcome is Error, that error is its entire
error history, and a deferred promise-adapted notification for it is already
queued.  This holds for every parent and also when an `onrejected` argument
is supplied alone; the `onrejected` continuation is never consulted — the
whole result is independent of it and no chain that could route a Result
through it is built. -/
theorem C6_then_requires_onfulfilled (ρ : Type) (parent parent2 : Machine ρ)
    (onrejected onrejected2 : Option (UserCont (Err ρ) ρ)) :
    ((thenFn parent none onrejected).1.unit.outcome = Outcome.Error
      ∧ (thenFn parent none onrejected).1.unit.resolvedErrors
          = [Err.mustSupplyHandler]
      ∧ (thenFn parent none onrejected).1.unit.timeout = 0
      ∧ (thenFn parent none onrejected).1.ticks
          = [Tick.notifyErrors Err.mustSupplyHandler true])
    ∧ thenFn parent none onrejected = thenFn parent2 none onrejected2
    ∧ (thenFn parent none onrejected).2 = none :=
  ⟨⟨rfl, rfl, rfl, rfl⟩, rfl, rfl⟩

/-- Closure state of one `gather` call: the partial result object (an
association list in insertion order, `result[key] = value` updating in
place), the field count `size` reached by the synchronous registration loop,
and the `resolutions` counter. -/
structure GatherState (κ ρ : Type) where
  result : List (κ × ρ)
  size : Nat
  resolutions : Nat
deriving DecidableEq

/-- `result[key] = value` on the partial-result object: update the key in
place, or append it when new. -/
def setKey {κ ρ : Type} [DecidableEq κ] : List (κ × ρ) → κ → ρ → List (κ × ρ)
| [], k, v => [(k, v)]
| (k2, v2) :: rest, k, v =>
  if k = k2 then (k, v) :: rest else (k2, v2) :: setKey rest k v

/-- The closure state `gather`'s registration loop reaches when no child
settles during the loop itself: empty partial result, zero resolutions,
`size` equal to the field count.  This is not assumed of the loop — the
loop increments `size` only after each `.then` attach, and an
already-settled child delivers synchronously mid-loop against the stale
`size` — but `gatherLoop_pending` below proves it equal to the faithful
loop over children that are still pending at attach time. -/
def gatherInit (κ ρ : Type) (keys : List κ) : GatherState κ ρ :=
  { result := [], size := keys.length, resolutions := 0 }

/-- One settlement of a `gather` field: the child deferred value for key `k`
fulfilled with `v`, or rejected with an error. -/
inductive GatherEvent (κ ρ : Type) where
| fulfilledF : κ → ρ → GatherEvent κ ρ
| rejectedF : Err (List (κ × ρ)) → GatherEvent κ ρ

/-- The observers `gather` attaches to every child, acting on the closure
state and the aggregate unit (whose result type is the accumulated object):
a child fulfillment stores the value under its key, increments
`resolutions` and — exactly when the counter equals `size` — settles the
aggregate with the accumulated object through the adapter's `done` (the
object is not an `Error`, so this is a `fulfilled` call); a child rejection
immediately settles the aggregate through `reject` with the child's
error. -/
def gatherStep {κ ρ : Type} [DecidableEq κ]
    (st : GatherState κ ρ × Machine (List (κ × ρ))) :
    GatherEvent κ ρ → GatherState κ ρ × Machine (List (κ × ρ))
| GatherEvent.fulfilledF k v =>
  let gs : GatherState κ ρ :=
    { result := setKey st.1.result k v, size := st.1.size,
      resolutions := st.1.resolutions + 1 }
  if gs.resolutions = gs.size then (gs, fulfilledM gs.result false st.2)
  else (gs, st.2)
| GatherEvent.rejectedF e => (st.1, rejectedM e false st.2)

/-- Process a sequence of child settlements in arrival order. -/
def gatherRun {κ ρ : Type} [DecidableEq κ]
    (st : GatherState κ ρ × Machine (List (κ × ρ)))
    (evs : List (GatherEvent κ ρ)) : GatherState κ ρ × Machine (List (κ × ρ)) :=
  evs.foldl gatherStep st

/-- Child fulfillments for the given key/value pairs, in order. -/
def pairsEvents {κ ρ : Type} (pairs : List (κ × ρ)) : List (GatherEvent κ ρ) :=
  pairs.map (fun kv => GatherEvent.fulfilledF kv.1 kv.2)

theorem setKey_fresh {κ ρ : Type} [DecidableEq κ] (k : κ) (v : ρ) :
    ∀ acc : List (κ × ρ), k ∉ acc.map Prod.fst → setKey acc k v = acc ++ [(k, v)] := by
  intro acc
  induction acc with
  | nil => intro _; rfl
  | cons p rest ih =>
    intro hk
    have hne : k ≠ p.1 := by
      intro hkk
      exact hk (by rw [hkk]; exact List.mem_map.mpr ⟨p, List.mem_cons_self _ _, rfl⟩)
    obtain ⟨k2, v2⟩ := p
    show (if k = k2 then (k, v) :: rest else (k2, v2) :: setKey rest k v) = _
    rw [if_neg hne]
    rw [ih (fun hmem => hk (List.mem_cons_of_mem _ hmem))]
    rfl

theorem foldl_setKey_append {κ ρ : Type} [DecidableEq κ] :
    ∀ (pairs acc : List (κ × ρ)),
    (∀ k ∈ pairs.map Prod.fst, k ∉ acc.map Prod.fst) →
    (pairs.map Prod.fst).Nodup →
    pairs.foldl (fun a kv => setKey a kv.1 kv.2) acc = acc ++ pairs := by
  intro pairs
  induction pairs with
  | nil => intro acc _ _; rw [List.foldl_nil, List.append_nil]
  | cons p rest ih =>
    intro acc hdisj hnd
    have hp : p.1 ∉ acc.map Prod.fst :=
      hdisj p.1 (by exact List.mem_map.mpr ⟨p, List.mem_cons_self _ _, rfl⟩)
    have hnd2 : (rest.map Prod.fst).Nodup := by
      rw [List.map_cons] at hnd
      exact hnd.of_cons
    have hdisj2 : ∀ k ∈ rest.map Prod.fst, k ∉ (acc ++ [p]).map Prod.fst := by
      intro k hkmem
      rw [List.map_append]
      intro hm
      rcases List.mem_append.mp hm with hm1 | hm2
      · exact hdisj k (by
          rw [List.map_cons]
          exact List.mem_cons_of_mem _ hkmem) hm1
      · rw [List.map_cons] at hnd
        rcases List.mem_map.mp hm2 with ⟨q, hq1, hq2⟩
        rcases List.mem_singleton.mp hq1 with hq3
        rw [hq3] at hq2
        exact (List.nodup_cons.mp hnd).1 (by rw [hq2]; exact hkmem)
    calc (p :: rest).foldl (fun a kv => setKey a kv.1 kv.2) acc
        = rest.foldl (fun a kv => setKey a kv.1 kv.2) (setKey acc p.1 p.2) :=
          List.foldl_cons _ _
      _ = rest.foldl (fun a kv => setKey a kv.1 kv.2) (acc ++ [p]) := by
          rw [setKey_fresh p.1 p.2 acc hp]
      _ = (acc ++ [p]) ++ rest := ih (acc ++ [p]) hdisj2 hnd2
      _ = acc ++ p :: rest := by rw [List.append_assoc]; rfl

theorem gatherRun_under {κ ρ : Type} [DecidableEq κ] :
    ∀ (pairs : List (κ × ρ)) (gs : GatherState κ ρ)
      (agg : Machine (List (κ × ρ))),
    gs.resolutions + pairs.length < gs.size →
    (gatherRun (gs, agg) (pairsEvents pairs)).2 = agg
    ∧ (gatherRun (gs, agg) (pairsEvents pairs)).1.result
        = pairs.foldl (fun a kv => setKey a kv.1 kv.2) gs.result
    ∧ (gatherRun (gs, agg) (pairsEvents pairs)).1.resolutions
        = gs.resolutions + pairs.length
    ∧ (gatherRun (gs, agg) (pairsEvents pairs)).1.size = gs.size := by
  intro pairs
  induction pairs with
  | nil =>
    intro gs agg _
    exact ⟨rfl, rfl, rfl, rfl⟩
  | cons p rest ih =>
    intro gs agg h
    have hne : ¬ (gs.resolutions + 1 = gs.size) := by
      rw [List.length_cons] at h
      omega
    have hstep : gatherStep (gs, agg) (GatherEvent.fulfilledF p.1 p.2)
        = ((⟨setKey gs.result p.1 p.2, gs.size, gs.resolutions + 1⟩ :
            GatherState κ ρ), agg) := by
      show (if gs.resolutions + 1 = gs.size then _ else _) = _
      rw [if_neg hne]
    have hrun : gatherRun (gs, agg) (pairsEvents (p :: rest))
        = gatherRun ((⟨setKey gs.result p.1 p.2, gs.size, gs.resolutions + 1⟩ :
            GatherState κ ρ), agg) (pairsEvents rest) := by
      show gatherRun (gatherStep (gs, agg) (GatherEvent.fulfilledF p.1 p.2))
        (pairsEvents rest) = _
      rw [hstep]
    have harith : (⟨setKey gs.result p.1 p.2, gs.size, gs.resolutions + 1⟩ :
          GatherState κ ρ).resolutions + rest.length
        < (⟨setKey gs.result p.1 p.2, gs.size, gs.resolutions + 1⟩ :
          GatherState κ ρ).size := by
      show gs.resolutions + 1 + rest.length < gs.size
      rw [List.length_cons] at h
      omega
    obtain ⟨ha, hb, hc, hd⟩ := ih _ agg harith
    refine ⟨by rw [hrun]; exact ha, by rw [hrun, hb]; rfl, ?_, by rw [hrun]; exact hd⟩
    rw [hrun, hc]
    show gs.resolutions + 1 + rest.length = gs.resolutions + (rest.length + 1)
    omega

theorem gatherRun_exact {κ ρ : Type} [DecidableEq κ] :
    ∀ (pairs : List (κ × ρ)), pairs ≠ [] →
    ∀ (gs : GatherState κ ρ) (agg : Machine (List (κ × ρ))),
    gs.resolutions + pairs.length = gs.size →
    (gatherRun (gs, agg) (pairsEvents pairs)).2
      = fulfilledM (pairs.foldl (fun a kv => setKey a kv.1 kv.2) gs.result)
          false agg := by
  intro pairs
  induction pairs with
  | nil => intro hne; exact absurd rfl hne
  | cons p rest ih =>
    intro _ gs agg h
    by_cases hr : rest = []
    · subst hr
      have hfire : gs.resolutions + 1 = gs.size := by
        rw [List.length_cons, List.length_nil] at h
        omega
      have hstep : gatherStep (gs, agg) (GatherEvent.fulfilledF p.1 p.2)
          = ((⟨setKey gs.result p.1 p.2, gs.size, gs.resolutions + 1⟩ :
              GatherState κ ρ),
             fulfilledM (setKey gs.result p.1 p.2) false agg) := by
        show (if gs.resolutions + 1 = gs.size then _ else _) = _
        rw [if_pos hfire]
      show (gatherRun (gatherStep (gs, agg) (GatherEvent.fulfilledF p.1 p.2))
        (pairsEvents [])).2 = _
      rw [hstep]
      rfl
    · have hne2 : ¬ (gs.resolutions + 1 = gs.size) := by
        have hlen : 0 < rest.length := List.length_pos.mpr hr
        rw [List.length_cons] at h
        omega
      have hstep : gatherStep (gs, agg) (GatherEvent.fulfilledF p.1 p.2)
          = ((⟨setKey gs.result p.1 p.2, gs.size, gs.resolutions + 1⟩ :
              GatherState κ ρ), agg) := by
        show (if gs.resolutions + 1 = gs.size then _ else _) = _
        rw [if_neg hne2]
      have harith : (⟨setKey gs.result p.1 p.2, gs.size, gs.resolutions + 1⟩ :
            GatherState κ ρ).resolutions + rest.length
          = (⟨setKey gs.result p.1 p.2, gs.size, gs.resolutions + 1⟩ :
            GatherState κ ρ).size := by
        show gs.resolutions + 1 + rest.length = gs.size
        rw [List.length_cons] at h
        omega
      show (gatherRun (gatherStep (gs, agg) (GatherEvent.fulfilledF p.1 p.2))
        (pairsEvents rest)).2 = _
      rw [hstep]
      exact ih hr _ agg harith

/-- How one `gather` child behaves at `.then` attach time: still pending (it
will settle only after the registration loop, as a protocol-compliant
deferred value does), or an already-settled `Tasklet`, fulfilled or
rejected — whose `then` chain replays its history synchronously and
therefore invokes `gather`'s observer during the attach itself, before
`size += 1` runs for that field. -/
inductive ChildKind (κ ρ : Type) where
| pending : ChildKind κ ρ
| settledF : ρ → ChildKind κ ρ
| settledE : Err (List (κ × ρ)) → ChildKind κ ρ

/-- The registration loop of `gather` (source lines 347-364): for each
field, attach the two observers with `.then` — an already-settled child
delivers synchronously at this very point, through `then`'s `or`/`and`
chain whose registrations replay history synchronously down to the
observer, with `size` still holding only the count of previously attached
fields — and only then increment `size`. -/
def gatherLoop {κ ρ : Type} [DecidableEq κ] :
    List (κ × ChildKind κ ρ) →
    GatherState κ ρ × Machine (List (κ × ρ)) →
    GatherState κ ρ × Machine (List (κ × ρ))
| [], st => st
| (k, ck) :: rest, st =>
  let st2 :=
    match ck with
    | ChildKind.pending => st
    | ChildKind.settledF v => gatherStep st (GatherEvent.fulfilledF k v)
    | ChildKind.settledE e => gatherStep st (GatherEvent.rejectedF e)
  gatherLoop rest
    ((⟨st2.1.result, st2.1.size + 1, st2.1.resolutions⟩ : GatherState κ ρ), st2.2)

theorem gatherLoop_pending {κ ρ : Type} [DecidableEq κ] :
    ∀ (keys : List κ) (gs : GatherState κ ρ) (agg : Machine (List (κ × ρ))),
    gatherLoop (keys.map (fun k => (k, ChildKind.pending))) (gs, agg)
      = ((⟨gs.result, gs.size + keys.length, gs.resolutions⟩ : GatherState κ ρ),
         agg) := by
  intro keys
  induction keys with
  | nil => intro gs agg; rfl
  | cons k rest ih =>
    intro gs agg
    show gatherLoop (rest.map (fun k2 => (k2, ChildKind.pending)))
      ((⟨gs.result, gs.size + 1, gs.resolutions⟩ : GatherState κ ρ), agg) = _
    rw [ih ⟨gs.result, gs.size + 1, gs.resolutions⟩ agg]
    show ((⟨gs.result, gs.size + 1 + rest.length, gs.resolutions⟩ :
      GatherState κ ρ), agg) = _
    have hlen : gs.size + 1 + rest.length = gs.size + (k :: rest).length := by
      rw [List.length_cons]
      omega
    rw [hlen]

/-- The aggregate unit as `gather` builds it: a fresh tasklet with
`timeout = 0` contracted to the registration job (which itself settles
nothing and returns no work handle). -/
def wGatherAgg : Machine (List (Nat × Nat)) :=
  contracted (Contract.job ⟨[], Except.ok none⟩) (newMachine 0)

/-- C4 counterexample: `gather` over two already-settled children.  Both
fulfillments are delivered synchronously during the registration loop, each
compared against the stale partial `size` (0, then 1, because `size += 1`
runs only after the corresponding `.then` attach).  The loop ends with the
fulfilled count at the field count 2 — and `size` finally at 2 — yet the
aggregate was never settled: it is still Pending with empty histories.
This refutes the claim that the aggregate fulfills exactly when the count
of fulfilled fields reaches `N`, and with it the claim's reading that the
total field count is recorded up front. -/
theorem C4_gather_counterexample :
    (gatherLoop [(0, ChildKind.settledF 10), (1, ChildKind.settledF 20)]
        ((⟨[], 0, 0⟩ : GatherState Nat Nat), wGatherAgg)).1.resolutions = 2
    ∧ (gatherLoop [(0, ChildKind.settledF 10), (1, ChildKind.settledF 20)]
        ((⟨[], 0, 0⟩ : GatherState Nat Nat), wGatherAgg)).1.size = 2
    ∧ (gatherLoop [(0, ChildKind.settledF 10), (1, ChildKind.settledF 20)]
        ((⟨[], 0, 0⟩ : GatherState Nat Nat), wGatherAgg)).1.result
        = [(0, 10), (1, 20)]
    ∧ (gatherLoop [(0, ChildKind.settledF 10), (1, ChildKind.settledF 20)]
        ((⟨[], 0, 0⟩ : GatherState Nat Nat), wGatherAgg)).2 = wGatherAgg
    ∧ wGatherAgg.unit.outcome = Outcome.Pending
    ∧ wGatherAgg.unit.resolvedResults = ([] : List (List (Nat × Nat)))
    ∧ wGatherAgg.unit.resolvedErrors = ([] : List (Err (List (Nat × Nat)))) :=
  ⟨by decide, by decide, by decide, rfl, rfl, rfl, rfl⟩

/-- C4 as amended: `size` reaches the field count `N` only once the
registration loop has finished, so the claimed aggregate behaviour holds
for settlements delivered after the loop — which is every settlement when
the children are still pending at attach time, as protocol-compliant
deferred values are.  Then: the loop over pending children yields exactly
the up-front state (`size = N`, nothing resolved, aggregate untouched);
processing fewer than `N` post-loop fulfillments and no rejection leaves
the aggregate completely untouched — it never settles before every field
has resolved, whatever the arrival order; processing exactly `N` post-loop
fulfillments with distinct keys settles the aggregate, on the event that
brings the count to `N`, with exactly the accumulated object mapping each
child's key to its value (a Pending aggregate becomes Result with that
object appended to its result history); and a child rejection settles the
aggregate immediately with the first observed child error, without waiting
for the remaining fields — the step is exactly a `rejected` call, and a
Pending aggregate becomes Error.  (A child settling synchronously during
the loop is instead compared against the stale partial `size`; see the
counterexample.) -/
theorem C4_gather_post_loop (κ ρ : Type) [DecidableEq κ] (keys : List κ)
    (pairs pairs2 : List (κ × ρ)) (agg agg2 agg3 : Machine (List (κ × ρ)))
    (gs : GatherState κ ρ) (e : Err (List (κ × ρ)))
    (hunder : pairs.length < keys.length)
    (hne : pairs2 ≠ []) (hlen : pairs2.length = keys.length)
    (hnd : (pairs2.map Prod.fst).Nodup) :
    (gatherLoop (keys.map (fun k => (k, ChildKind.pending)))
        ((⟨[], 0, 0⟩ : GatherState κ ρ), agg) = (gatherInit κ ρ keys, agg)
      ∧ (gatherInit κ ρ keys).size = keys.length)
    ∧ (gatherRun (gatherInit κ ρ keys, agg) (pairsEvents pairs)).2 = agg
    ∧ ((gatherRun (gatherInit κ ρ keys, agg2) (pairsEvents pairs2)).2
        = fulfilledM pairs2 false agg2
      ∧ (agg2.unit.outcome = Outcome.Pending →
          (gatherRun (gatherInit κ ρ keys, agg2) (pairsEvents pairs2)).2.unit.outcome
            = Outcome.Result)
      ∧ (gatherRun (gatherInit κ ρ keys, agg2)
            (pairsEvents pairs2)).2.unit.resolvedResults
          = agg2.unit.resolvedResults ++ [pairs2])
    ∧ (gatherStep (gs, agg3) (GatherEvent.rejectedF e) = (gs, rejectedM e false agg3)
      ∧ (agg3.unit.outcome = Outcome.Pending →
          (gatherStep (gs, agg3) (GatherEvent.rejectedF e)).2.unit.outcome
            = Outcome.Error)) := by
  have hloop : gatherLoop (keys.map (fun k => (k, ChildKind.pending)))
      ((⟨[], 0, 0⟩ : GatherState κ ρ), agg) = (gatherInit κ ρ keys, agg) := by
    rw [gatherLoop_pending keys ⟨[], 0, 0⟩ agg]
    show ((⟨[], 0 + keys.length, 0⟩ : GatherState κ ρ), agg) = _
    have hz : 0 + keys.length = keys.length := by omega
    rw [hz]
    rfl
  have hu := gatherRun_under pairs (gatherInit κ ρ keys) agg (by
    show 0 + pairs.length < keys.length
    omega)
  have hx : (gatherRun (gatherInit κ ρ keys, agg2) (pairsEvents pairs2)).2
      = fulfilledM pairs2 false agg2 := by
    have he := gatherRun_exact pairs2 hne (gatherInit κ ρ keys) agg2 (by
      show 0 + pairs2.length = keys.length
      omega)
    have hinit : (gatherInit κ ρ keys).result = ([] : List (κ × ρ)) := rfl
    rw [he, hinit, foldl_setKey_append pairs2 [] (by simp) hnd, List.nil_append]
  refine ⟨⟨hloop, rfl⟩, hu.1, ⟨hx, ?_, ?_⟩, ⟨rfl, ?_⟩⟩
  · intro hp
    rw [hx]
    exact fulfilledM_outcome_low _ _ _ (by rw [hp]; exact Nat.le_refl 1)
  · rw [hx]
    exact fulfilledM_resolvedResults _ _ _
  · intro hp
    show (rejectedM e false agg3).unit.outcome = Outcome.Error
    exact rejectedM_outcome_low _ _ _ (by rw [hp]; exact Nat.le_refl 1)

/-- Witness for the amended C4 with two fields settling after the loop: the
loop over pending children records `size = 2`, one fulfillment leaves the
aggregate untouched, both fulfillments settle it with the accumulated
object. -/
theorem C4_gather_post_loop_witness :
    ([(0, 10)].length < [0, 1].length
      ∧ ([(0, 10), (1, 20)] : List (Nat × Nat)) ≠ []
      ∧ [(0, 10), (1, 20)].length = [0, 1].length)
    ∧ gatherLoop ([0, 1].map (fun k => (k, ChildKind.pending)))
        ((⟨[], 0, 0⟩ : GatherState Nat Nat), wGatherAgg)
        = (gatherInit Nat Nat [0, 1], wGatherAgg)
    ∧ (gatherRun (gatherInit Nat Nat [0, 1], wGatherAgg)
        (pairsEvents [(0, 10)])).2 = wGatherAgg
    ∧ (gatherRun (gatherInit Nat Nat [0, 1], wGatherAgg)
        (pairsEvents [(0, 10), (1, 20)])).2
        = fulfilledM [(0, 10), (1, 20)] false wGatherAgg
    ∧ (gatherRun (gatherInit Nat Nat [0, 1], wGatherAgg)
        (pairsEvents [(0, 10), (1, 20)])).2.unit.outcome = Outcome.Result := by
  have H := C4_gather_post_loop Nat Nat [0, 1] [(0, 10)] [(0, 10), (1, 20)]
    wGatherAgg wGatherAgg wGatherAgg (gatherInit Nat Nat [0, 1]) Err.timeout
    (by decide) (by decide) (by decide) (by decide)
  exact ⟨⟨by decide, by decide, by decide⟩, H.1.1, H.2.1, H.2.2.1.1,
    H.2.2.1.2.1 rfl⟩

end Tasklets
